import Mathlib

/-!
# fil-tools: deal proposal, deal watching and the deal executor

A shallow embedding of `deals/deals.go` (`Store`, `Watch`, `pushNewChanges`) and of
`dealexecutor/dealexecutor.go` (`Start`, `GetLog`, `addErrorEvent`, `addSuccessEvent`).

Conventions of the embedding.

* The Filecoin node, the file system, the consumer of the event channel and the
  trigger/redo collaborators are external.  Each of their operations is a function
  `σ → args → result × σ` over an arbitrary world type `σ`, so that a theorem quantified
  over the record of operations holds for every behaviour, stateful ones included.
* A Go pair `(value, error)` returned by an external call is an `Except Error value`:
  the value is used only when the error is nil, which is the contract of the Go APIs
  involved (a nil error comes with a usable value).
* A Go `panic` is a constructor of the result: `Exit.panicked` for `pushNewChanges`
  (the slice index `api.DealStates[dinfo.State]` is out of range), `Outcome.panic` in the
  executor.
* Calls of the logger (`log.Errorf`, `log.Warnf`, `log.Info`) and `defer f.Close()` do not
  bear on what the functions return or send, and are left out.
* The goroutine started by `Watch` is run over the finite sequence of resolutions of its
  `select` statement that have happened so far.
-/

namespace FilTools

/-- The go-cid `Cid`: a struct around one string, comparable and usable as a map key. -/
structure Cid where
  str : String
deriving DecidableEq

/-- The go-address `Address`: a struct around one string. -/
structure Address where
  str : String
deriving DecidableEq

/-- The lotus `types.BigInt`: an arbitrary precision integer. -/
abbrev BigInt := Int

/-- A non-nil Go `error`, by its message. -/
abbrev Error := String

deriving instance DecidableEq for Except

namespace api

/-- The lotus `api.DealInfo`, with the fields `pushNewChanges` reads.  `State`, `Size` and
`Duration` are `uint64` in Go; they are only copied and compared here, never computed with. -/
structure DealInfo where
  ProposalCid : Cid
  State : Nat
  Provider : Address
  PieceRef : List Nat
  Size : Nat
  PricePerEpoch : BigInt
  Duration : Nat
deriving DecidableEq

/-- The lotus table `api.DealStates`, a slice with the names of the eight deal states;
`pushNewChanges` indexes it with the fetched `State`. -/
def DealStates : List String :=
  ["DealUnknown", "DealRejected", "DealAccepted", "DealStaged", "DealSealing", "DealFailed",
   "DealComplete", "DealError"]

end api

namespace deals

/-- The Go `time.Second`, in nanoseconds (the unit of `time.Duration`). -/
def Second : Nat := 1000000000

/-- `initialWait = time.Second * 5`. -/
def initialWait : Nat := Second * 5

/-- `chanWriteTimeout = time.Second`. -/
def chanWriteTimeout : Nat := Second

/-- Modelled from the spec: the declaration of `DealConfig` is in a file of the package
that is not among the sources; `Store` reads the fields `Miner` (the provider address
string) and `EpochPrice`. -/
structure DealConfig where
  Miner : String
  EpochPrice : BigInt
deriving DecidableEq

/-- Modelled from the spec: the declaration of `Config` is in a file of the package that is
not among the sources; `New` and `Store` read the field `ImportPath`. -/
structure Config where
  ImportPath : String
deriving DecidableEq

/-- Modelled from the spec: the declaration of the package's own `DealInfo` is in a file
that is not among the sources; the fields are those of the struct literal in
`pushNewChanges`. -/
structure DealInfo where
  ProposalCid : Cid
  StateID : Nat
  StateName : String
  Miner : String
  PieceRef : List Nat
  Size : Nat
  PricePerEpoch : BigInt
  Duration : Nat
deriving DecidableEq

/-- The interface `API` of the Filecoin full node, each method over the world `σ`.
`ChainNotify` yields the notification feed; the feed's deliveries are the `recv`/`closed`
resolutions of the `select` in the goroutine of `Watch`. -/
structure API (σ : Type) where
  ClientStartDeal : σ → Cid → Address → Address → BigInt → Nat → Except Error Cid × σ
  ClientImport : σ → String → Except Error Cid × σ
  ClientGetDealInfo : σ → Cid → Except Error api.DealInfo × σ
  ChainNotify : σ → Except Error Unit × σ

/-- How the `select` in `pushNewChanges` resolved: the consumer received the value, the
context was done, or `time.After(chanWriteTimeout)` fired. -/
inductive SendOutcome where
  | sent
  | ctxDone
  | timedOut
deriving DecidableEq

/-- What the code uses from outside the repository besides the node and the table
`api.DealStates`: `address.NewFromString`, `Address.String`, `ioutil.TempFile`, `io.Copy`,
and the resolution of the three-way `select` that sends on the channel. -/
structure Runtime (σ : Type) where
  NewFromString : String → Except Error Address
  AddressString : Address → String
  TempFile : σ → String → String → Except Error String × σ
  Copy : σ → String → List Nat → Except Error Nat × σ
  selectSend : σ → DealInfo → SendOutcome × σ

/-- The struct `Module`. -/
structure Module (σ : Type) where
  api : API σ
  cfg : Config

/-- One invocation of `ClientStartDeal`, by its arguments. -/
structure StartDealCall where
  data : Cid
  addr : Address
  miner : Address
  price : BigInt
  blocksDuration : Nat
deriving DecidableEq

/-- The variables of the loop of `Store`, with the record of the `ClientStartDeal` calls
made so far and the world. -/
structure StoreLoop (σ : Type) where
  proposals : List Cid
  failed : List DealConfig
  started : List StartDealCall
  world : σ

/-- The body of `for _, c := range dcfgs` in `Store`. -/
def storeBody {σ : Type} (m : Module σ) (rt : Runtime σ) (dataCid : Cid) (addr : Address)
    (dur : Nat) (st : StoreLoop σ) (c : DealConfig) : StoreLoop σ :=
  match rt.NewFromString c.Miner with
  | .error _ => { st with failed := st.failed ++ [c] }
  | .ok maddr =>
    let call : StartDealCall := ⟨dataCid, addr, maddr, c.EpochPrice, dur⟩
    match m.api.ClientStartDeal st.world dataCid addr maddr c.EpochPrice dur with
    | (.error _, w) =>
      { st with failed := st.failed ++ [c], started := st.started ++ [call], world := w }
    | (.ok proposal, w) =>
      { st with proposals := st.proposals ++ [proposal], started := st.started ++ [call],
                world := w }

/-- What `Store` returns (`proposals`, `failed`, `err`), with the `ClientStartDeal` calls it
made and the world it leaves. -/
structure StoreRun (σ : Type) where
  proposals : List Cid
  failed : List DealConfig
  err : Option Error
  started : List StartDealCall
  world : σ

/-- `Module.Store`. -/
def Store {σ : Type} (m : Module σ) (rt : Runtime σ) (w : σ) (waddr : String)
    (data : List Nat) (dcfgs : List DealConfig) (dur : Nat) : StoreRun σ :=
  match rt.TempFile w m.cfg.ImportPath "import-*" with
  | (.error err, w1) => ⟨[], [], some ("error when creating tmpfile: " ++ err), [], w1⟩
  | (.ok f, w1) =>
    match rt.Copy w1 f data with
    | (.error err, w2) => ⟨[], [], some ("error when copying data to tmpfile: " ++ err), [], w2⟩
    | (.ok _, w2) =>
      match m.api.ClientImport w2 f with
      | (.error err, w3) => ⟨[], [], some ("error when importing data: " ++ err), [], w3⟩
      | (.ok dataCid, w3) =>
        match rt.NewFromString waddr with
        | .error err => ⟨[], [], some err, [], w3⟩
        | .ok addr =>
          let st := dcfgs.foldl (storeBody m rt dataCid addr dur) ⟨[], [], [], w3⟩
          ⟨st.proposals, st.failed, none, st.started, st.world⟩

/-- What the batch does with one config from the world `w`: `none` when the provider
address does not parse (no call is made), otherwise the answer of `ClientStartDeal`; and
the world afterwards. -/
def answer {σ : Type} (m : Module σ) (rt : Runtime σ) (dataCid : Cid) (addr : Address)
    (dur : Nat) (w : σ) (c : DealConfig) : Option (Except Error Cid) × σ :=
  match rt.NewFromString c.Miner with
  | .error _ => (none, w)
  | .ok maddr =>
    ((m.api.ClientStartDeal w dataCid addr maddr c.EpochPrice dur).1,
     (m.api.ClientStartDeal w dataCid addr maddr c.EpochPrice dur).2)

/-- The configs in input order, each with the id `ClientStartDeal` returned for it, or
`none` when its provider address does not parse or `ClientStartDeal` returned an error. -/
def verdicts {σ : Type} (m : Module σ) (rt : Runtime σ) (dataCid : Cid) (addr : Address)
    (dur : Nat) : σ → List DealConfig → List (DealConfig × Option Cid)
  | _, [] => []
  | w, c :: cs =>
    (c, match (answer m rt dataCid addr dur w c).1 with
        | some (.ok id) => some id
        | _ => none) :: verdicts m rt dataCid addr dur (answer m rt dataCid addr dur w c).2 cs

/-- The ids of the accepted configs of a list of verdicts, in order. -/
def acceptedIds (vs : List (DealConfig × Option Cid)) : List Cid :=
  vs.filterMap (fun v => v.2)

/-- The configs of a list of verdicts that have no id, in order. -/
def failedConfigs (vs : List (DealConfig × Option Cid)) : List DealConfig :=
  vs.filterMap (fun v => if v.2.isNone then some v.1 else none)

/-- One iteration of `for _, pcid := range proposals` in `pushNewChanges`: the id, what
`ClientGetDealInfo` returned for it, and the send that was attempted, if any, with the
resolution of its `select`. -/
structure Step where
  pcid : Cid
  fetched : Except Error api.DealInfo
  attempt : Option (DealInfo × SendOutcome)
deriving DecidableEq

/-- How a call ended: it returned the error value `err`, or it panicked. -/
inductive Exit where
  | returned (err : Option Error)
  | panicked (msg : String)
deriving DecidableEq

/-- The value of the run-time panic of an out-of-range slice index (Go adds the index and
the length of the slice to the message). -/
def indexOutOfRange : String := "runtime error: index out of range"

/-- The session map `map[cid.Cid]*api.DealInfo`; `none` is the nil pointer of an absent
key. -/
abbrev StateMap := Cid → Option api.DealInfo

/-- The map write `currState[pcid] = dinfo`. -/
def setState (cs : StateMap) (pcid : Cid) (dinfo : api.DealInfo) : StateMap :=
  fun k => if k = pcid then some dinfo else cs k

/-- The test `currState[pcid] == nil || (*currState[pcid]).State != dinfo.State`. -/
def isNewState (cs : StateMap) (pcid : Cid) (dinfo : api.DealInfo) : Bool :=
  match cs pcid with
  | none => true
  | some old => old.State != dinfo.State

/-- The struct literal `newState := DealInfo{...}` of `pushNewChanges`: `none` when the
index expression `api.DealStates[dinfo.State]` is out of range, which panics. -/
def newState {σ : Type} (rt : Runtime σ) (dinfo : api.DealInfo) : Option DealInfo :=
  match api.DealStates.get? dinfo.State with
  | none => none
  | some name =>
    some { ProposalCid := dinfo.ProposalCid
           StateID := dinfo.State
           StateName := name
           Miner := rt.AddressString dinfo.Provider
           PieceRef := dinfo.PieceRef
           Size := dinfo.Size
           PricePerEpoch := dinfo.PricePerEpoch
           Duration := dinfo.Duration }

/-- What one call of `pushNewChanges` leaves: the session map, the iterations it made, how
it ended and the world. -/
structure PushRun (σ : Type) where
  currState : StateMap
  steps : List Step
  exit : Exit
  world : σ

/-- The run `r` of the rest of the loop, preceded by the iteration `s`. -/
def PushRun.after {σ : Type} (r : PushRun σ) (s : Step) : PushRun σ :=
  { r with steps := s :: r.steps }

/-- `Module.pushNewChanges`.  A failed fetch and a timed-out send go on with the next id;
`case <-ctx.Done(): return nil` leaves the loop; an out-of-range index in the struct
literal panics, after the map write `currState[pcid] = dinfo` and before the `select`. -/
def pushNewChanges {σ : Type} (m : Module σ) (rt : Runtime σ) :
    StateMap → σ → List Cid → PushRun σ
  | cs, w, [] => ⟨cs, [], .returned none, w⟩
  | cs, w, pcid :: rest =>
    match m.api.ClientGetDealInfo w pcid with
    | (.error err, w1) =>
      (pushNewChanges m rt cs w1 rest).after ⟨pcid, .error err, none⟩
    | (.ok dinfo, w1) =>
      if isNewState cs pcid dinfo then
        match newState rt dinfo with
        | none =>
          ⟨setState cs pcid dinfo, [⟨pcid, .ok dinfo, none⟩], .panicked indexOutOfRange, w1⟩
        | some ev =>
          match rt.selectSend w1 ev with
          | (.ctxDone, w2) =>
            ⟨setState cs pcid dinfo, [⟨pcid, .ok dinfo, some (ev, .ctxDone)⟩],
              .returned none, w2⟩
          | (.sent, w2) =>
            (pushNewChanges m rt (setState cs pcid dinfo) w2 rest).after
              ⟨pcid, .ok dinfo, some (ev, .sent)⟩
          | (.timedOut, w2) =>
            (pushNewChanges m rt (setState cs pcid dinfo) w2 rest).after
              ⟨pcid, .ok dinfo, some (ev, .timedOut)⟩
      else
        (pushNewChanges m rt cs w1 rest).after ⟨pcid, .ok dinfo, none⟩

/-- How the `select` of the goroutine of `Watch` resolved: `case <-ctx.Done()`, or
`case <-w` with a notification, or `case <-w` on the closed feed (a receive from a closed
channel returns the zero value at once; the code does not read the second result). -/
inductive LoopSelect where
  | ctxDone
  | recv
  | closed
deriving DecidableEq

/-- What a call of `Watch` has done after some resolutions of the goroutine's `select`:
the error `Watch` returned, the iterations of each tick, whether `defer close(ch)` ran (the
goroutine returned or panicked), the value of the panic that ended the goroutine, if any
(an unrecovered panic ends the process), the session map and the world. -/
structure WatchRun (σ : Type) where
  err : Option Error
  ticks : List (List Step)
  chClosed : Bool
  panic : Option String
  currState : StateMap
  world : σ

/-- The run `r` of the rest of the goroutine, preceded by a tick with iterations `t`. -/
def WatchRun.afterTick {σ : Type} (r : WatchRun σ) (t : List Step) : WatchRun σ :=
  { r with ticks := t :: r.ticks }

/-- The case `case <-w:` of the goroutine: run `pushNewChanges`; when it returns (its
error is only logged) go on with `next`, when it panics the goroutine ends there. -/
def tick {σ : Type} (m : Module σ) (rt : Runtime σ) (proposals : List Cid) (cs : StateMap)
    (w : σ) (next : StateMap → σ → WatchRun σ) : WatchRun σ :=
  match (pushNewChanges m rt cs w proposals).exit with
  | .returned _ =>
    (next (pushNewChanges m rt cs w proposals).currState
      (pushNewChanges m rt cs w proposals).world).afterTick
      (pushNewChanges m rt cs w proposals).steps
  | .panicked msg =>
    ⟨none, [(pushNewChanges m rt cs w proposals).steps], true, some msg,
      (pushNewChanges m rt cs w proposals).currState,
      (pushNewChanges m rt cs w proposals).world⟩

/-- The `for { select { ... } }` of the goroutine of `Watch`, over the resolutions of the
`select` so far.  Both receives from `w` run `pushNewChanges`; only `ctx.Done()` returns. -/
def watchLoop {σ : Type} (m : Module σ) (rt : Runtime σ) (proposals : List Cid) :
    StateMap → σ → List LoopSelect → WatchRun σ
  | cs, w, [] => ⟨none, [], false, none, cs, w⟩
  | cs, w, .ctxDone :: _ => ⟨none, [], true, none, cs, w⟩
  | cs, w, .recv :: rest =>
    tick m rt proposals cs w (fun cs1 w1 => watchLoop m rt proposals cs1 w1 rest)
  | cs, w, .closed :: rest =>
    tick m rt proposals cs w (fun cs1 w1 => watchLoop m rt proposals cs1 w1 rest)

/-- `Module.Watch`: subscribe with `ChainNotify`, then the goroutine with a fresh
`currentState`. -/
def Watch {σ : Type} (m : Module σ) (rt : Runtime σ) (w : σ) (proposals : List Cid)
    (sels : List LoopSelect) : WatchRun σ :=
  match m.api.ChainNotify w with
  | (.error err, w1) =>
    ⟨some ("error when listening to chain changes: " ++ err), [], false, none,
      fun _ => none, w1⟩
  | (.ok _, w1) => watchLoop m rt proposals (fun _ => none) w1 sels

/-- The iterations of all ticks, in order. -/
def allSteps (ticks : List (List Step)) : List Step := ticks.flatten

/-- The values the consumer received on the channel, in order. -/
def delivered (steps : List Step) : List DealInfo :=
  steps.filterMap fun s =>
    match s.attempt with
    | some (ev, .sent) => some ev
    | _ => none

/-- The stateIDs fetched for `p`, in fetch order. -/
def observed (p : Cid) (steps : List Step) : List Nat :=
  steps.filterMap fun s =>
    if s.pcid = p then
      match s.fetched with
      | .ok dinfo => some dinfo.State
      | .error _ => none
    else none

/-- The stateIDs of the events whose send was attempted while handling `p`, in order. -/
def attempted (p : Cid) (steps : List Step) : List Nat :=
  steps.filterMap fun s =>
    if s.pcid = p then s.attempt.map (fun a => a.1.StateID) else none

/-- The stateIDs of the events the consumer received for `p`, in order. -/
def emitted (p : Cid) (steps : List Step) : List Nat :=
  steps.filterMap fun s =>
    if s.pcid = p then
      match s.attempt with
      | some (ev, .sent) => some ev.StateID
      | _ => none
    else none

end deals

namespace dealexecutor

/-- A Go call either returns or panics. -/
inductive Outcome (α : Type) where
  | returned (a : α)
  | panic (msg : String)
deriving DecidableEq

/-- The interface `LogEntry`, by the results of its four methods; `Timestamp` is a
`time.Time`, `CreatedCid` "might be nil if IsError() is true". -/
structure LogEntry where
  IsError : Bool
  CidTrigger : Cid
  Timestamp : Nat
  CreatedCid : Option Cid
deriving DecidableEq

/-- The interface `DealTrigger`, by the method `Start` calls.  The channel `Listen`
returns is given by the ids it delivers before it is closed. -/
structure DealTrigger (σ : Type) where
  Listen : σ → Except Error (List Cid) × σ

/-- The interface `DealRedoer`. -/
structure DealRedoer (σ : Type) where
  Redo : σ → Cid → Except Error Cid × σ

/-- The struct `DealExecutor`: a trigger and a redoer, and no other field. -/
structure DealExecutor (σ : Type) where
  dt : DealTrigger σ
  dr : DealRedoer σ

/-- `DealExecutor.GetLog`: the body is `panic("TODO")`. -/
def GetLog {σ : Type} (_de : DealExecutor σ) (_since : Nat) (_limit : Int) :
    Outcome (List LogEntry × Option Error) :=
  .panic "TODO"

/-- `DealExecutor.addErrorEvent`: the body is `panic("TODO")`. -/
def addErrorEvent {σ : Type} (_de : DealExecutor σ) (_c : Cid) (_err : Error) :
    Outcome (Option Error) :=
  .panic "TODO"

/-- `DealExecutor.addSuccessEvent`: the body is `panic("TODO")`. -/
def addSuccessEvent {σ : Type} (_de : DealExecutor σ) (_c : Cid) (_cid : Cid) :
    Outcome (Option Error) :=
  .panic "TODO"

/-- What a call of `Start` does: it returns an error value or panics, after the `Redo`
calls `redone` (their arguments, in order), leaving the world. -/
structure StartRun (σ : Type) where
  result : Outcome (Option Error)
  redone : List Cid
  world : σ

/-- The run `r` of the rest of the loop, preceded by a `Redo` of `c`. -/
def StartRun.afterRedo {σ : Type} (r : StartRun σ) (c : Cid) : StartRun σ :=
  { r with redone := c :: r.redone }

/-- The `for triggered := range dls` of `Start`: a panic of `addErrorEvent` or
`addSuccessEvent` ends the run, an error they return is only logged. -/
def startLoop {σ : Type} (de : DealExecutor σ) : σ → List Cid → StartRun σ
  | w, [] => ⟨.returned none, [], w⟩
  | w, triggered :: rest =>
    match de.dr.Redo w triggered with
    | (.error err, w1) =>
      match addErrorEvent de triggered err with
      | .panic msg => ⟨.panic msg, [triggered], w1⟩
      | .returned _ => (startLoop de w1 rest).afterRedo triggered
    | (.ok new, w1) =>
      match addSuccessEvent de triggered new with
      | .panic msg => ⟨.panic msg, [triggered], w1⟩
      | .returned _ => (startLoop de w1 rest).afterRedo triggered

/-- `DealExecutor.Start`. -/
def Start {σ : Type} (de : DealExecutor σ) (w : σ) (_sinceHeight : Int) : StartRun σ :=
  match de.dt.Listen w with
  | (.error err, w1) => ⟨.returned (some err), [], w1⟩
  | (.ok dls, w1) => startLoop de w1 dls

end dealexecutor

/-! ## Notions used to state the properties of `Watch` -/

namespace deals

/-- The stateID the session map holds for `p`, if any. -/
def lastState (cs : StateMap) (p : Cid) : Option Nat := (cs p).map (fun d => d.State)

/-- The list `obs` with every entry dropped that equals the entry before it, `prev` being
the entry before the first. -/
def collapseFrom : Option Nat → List Nat → List Nat
  | _, [] => []
  | prev, x :: xs =>
    if prev = some x then collapseFrom prev xs else x :: collapseFrom (some x) xs

/-- The last entry of `obs`, or `prev` when `obs` is empty. -/
def lastObs : Option Nat → List Nat → Option Nat
  | prev, [] => prev
  | _, x :: xs => lastObs (some x) xs

/-- An iteration is coherent: an attempted send carries `newState` of the `DealInfo` that
the iteration fetched, and its outcome is a resolution of `selectSend` for that value. -/
def Step.Coherent {σ : Type} (rt : Runtime σ) (s : Step) : Prop :=
  ∀ ev o, s.attempt = some (ev, o) →
    ∃ d w, s.fetched = .ok d ∧ newState rt d = some ev ∧ (rt.selectSend w ev).1 = o

/-- The stateID an iteration fetched, if any, is an index of the table `api.DealStates`. -/
def Step.inTable (s : Step) : Bool :=
  match s.fetched with
  | .ok d => decide (d.State < api.DealStates.length)
  | .error _ => true

end deals

/-! ## Concrete worlds used to run the definitions -/

namespace demo

open deals

/-- A node whose world counts the calls it answered: it rejects the provider `t0reject`
and accepts every other one; it cannot import the file `offline/import-1`; it does not
know the deal `lost` (the fetch fails and the
world stays as it is), and reports for every other deal the state at the head of `states`
after dropping one entry per earlier answer (failing once the list is used up). -/
def node (states : List Nat) : API Nat where
  ClientStartDeal := fun w _ _ miner _ _ =>
    if miner.str = "t0reject" then (.error "rejected", w + 1)
    else (.ok ⟨"deal-" ++ miner.str⟩, w + 1)
  ClientImport := fun w path =>
    if path = "offline/import-1" then (.error "import failed", w)
    else (.ok ⟨"data-" ++ path⟩, w)
  ClientGetDealInfo := fun w pcid =>
    if pcid.str = "lost" then (.error "deal not found", w)
    else
      match states.get? w with
      | some st => (.ok ⟨pcid, st, ⟨"t01000"⟩, [], 1024, 10, 100⟩, w + 1)
      | none => (.error "no more states", w + 1)
  ChainNotify := fun w => (.ok (), w)

/-- A runtime in which every string but `bad` is an address, the temporary file and the
copy succeed, and the select of a send resolves to `o`. -/
def runtime (o : SendOutcome) : Runtime Nat where
  NewFromString := fun s => if s = "bad" then .error "unknown address protocol" else .ok ⟨s⟩
  AddressString := fun a => a.str
  TempFile := fun w dir _ => (.ok (dir ++ "/import-1"), w)
  Copy := fun w _ data => (.ok data.length, w)
  selectSend := fun w _ => (o, w)

/-- A module on the node `node states`. -/
def module (states : List Nat) : Module Nat := ⟨node states, ⟨"imports"⟩⟩

/-- Three configs, the second with an unparsable provider address. -/
def threeConfigs : List DealConfig := [⟨"t01", 5⟩, ⟨"bad", 6⟩, ⟨"t03", 7⟩]

/-- An executor whose trigger delivers the ids `A`, `B`, `C` and then closes, and whose
redoer fails on `B` and returns a new id for every other deal. -/
def executor : dealexecutor.DealExecutor Nat where
  dt := ⟨fun w => (.ok [⟨"A"⟩, ⟨"B"⟩, ⟨"C"⟩], w)⟩
  dr := ⟨fun w c =>
    if c.str = "B" then (.error "redo failed", w + 1) else (.ok ⟨"new-" ++ c.str⟩, w + 1)⟩

end demo

/-! ## Theorems -/

namespace deals

variable {σ : Type}

theorem length_acceptedIds_add_failedConfigs (vs : List (DealConfig × Option Cid)) :
    (acceptedIds vs).length + (failedConfigs vs).length = vs.length := by
  induction vs with
  | nil => rfl
  | cons v vs ih =>
    obtain ⟨c, o⟩ := v
    cases o with
    | none => simp [acceptedIds, failedConfigs] at ih ⊢; omega
    | some id => simp [acceptedIds, failedConfigs] at ih ⊢; omega

theorem map_fst_verdicts (m : Module σ) (rt : Runtime σ) (dataCid : Cid) (addr : Address)
    (dur : Nat) (cs : List DealConfig) (w : σ) :
    (verdicts m rt dataCid addr dur w cs).map Prod.fst = cs := by
  induction cs generalizing w with
  | nil => rfl
  | cons c cs ih => simp [verdicts, ih]

theorem failedConfigs_sublist (vs : List (DealConfig × Option Cid)) :
    (failedConfigs vs).Sublist (vs.map Prod.fst) := by
  induction vs with
  | nil => simp [failedConfigs]
  | cons v vs ih =>
    obtain ⟨c, o⟩ := v
    cases o with
    | none => simpa [failedConfigs] using ih
    | some id =>
      have : failedConfigs ((c, some id) :: vs) = failedConfigs vs := by simp [failedConfigs]
      rw [this, List.map_cons]
      exact ih.trans (List.sublist_cons_self _ _)

/-- The loop of `Store` appends to its two lists what `verdicts` says, in order. -/
theorem foldl_storeBody (m : Module σ) (rt : Runtime σ) (dataCid : Cid) (addr : Address)
    (dur : Nat) (cs : List DealConfig) (st : StoreLoop σ) :
    (cs.foldl (storeBody m rt dataCid addr dur) st).proposals
        = st.proposals ++ acceptedIds (verdicts m rt dataCid addr dur st.world cs) ∧
    (cs.foldl (storeBody m rt dataCid addr dur) st).failed
        = st.failed ++ failedConfigs (verdicts m rt dataCid addr dur st.world cs) := by
  induction cs generalizing st with
  | nil => simp [verdicts, acceptedIds, failedConfigs]
  | cons c cs ih =>
    rw [List.foldl_cons]
    obtain ⟨h1, h2⟩ := ih (storeBody m rt dataCid addr dur st c)
    rw [h1, h2]
    cases hp : rt.NewFromString c.Miner with
    | error e => simp [storeBody, verdicts, answer, hp, acceptedIds, failedConfigs]
    | ok maddr =>
      rcases hs : m.api.ClientStartDeal st.world dataCid addr maddr c.EpochPrice dur with ⟨r, w⟩
      cases r <;> simp [storeBody, verdicts, answer, hp, hs, acceptedIds, failedConfigs]

/-- When the four preconditions succeed, `Store` returns what its loop leaves. -/
theorem Store_eq_loop (m : Module σ) (rt : Runtime σ) (w : σ) (waddr : String)
    (data : List Nat) (dcfgs : List DealConfig) (dur : Nat)
    (f : String) (n : Nat) (dataCid : Cid) (addr : Address) (w1 w2 w3 : σ)
    (hTemp : rt.TempFile w m.cfg.ImportPath "import-*" = (.ok f, w1))
    (hCopy : rt.Copy w1 f data = (.ok n, w2))
    (hImport : m.api.ClientImport w2 f = (.ok dataCid, w3))
    (hAddr : rt.NewFromString waddr = .ok addr) :
    (Store m rt w waddr data dcfgs dur).err = none ∧
    (Store m rt w waddr data dcfgs dur).proposals
      = acceptedIds (verdicts m rt dataCid addr dur w3 dcfgs) ∧
    (Store m rt w waddr data dcfgs dur).failed
      = failedConfigs (verdicts m rt dataCid addr dur w3 dcfgs) := by
  have h := foldl_storeBody m rt dataCid addr dur dcfgs ⟨[], [], [], w3⟩
  simp only [List.nil_append] at h
  simp only [Store, hTemp, hCopy, hImport, hAddr]
  exact ⟨trivial, h.1, h.2⟩

/-- C1: when temp-file creation, copy, `ClientImport` and the parsing of the wallet address
all succeed, then for every list of configs and every behaviour of provider-address parsing
and of `ClientStartDeal`, `Store` returns a nil error and
`len(proposals) + len(failed) = len(dcfgs)`. -/
theorem Store_accounts_for_every_config (m : Module σ) (rt : Runtime σ) (w : σ)
    (waddr : String) (data : List Nat) (dcfgs : List DealConfig) (dur : Nat)
    (f : String) (n : Nat) (dataCid : Cid) (addr : Address) (w1 w2 w3 : σ)
    (hTemp : rt.TempFile w m.cfg.ImportPath "import-*" = (.ok f, w1))
    (hCopy : rt.Copy w1 f data = (.ok n, w2))
    (hImport : m.api.ClientImport w2 f = (.ok dataCid, w3))
    (hAddr : rt.NewFromString waddr = .ok addr) :
    (Store m rt w waddr data dcfgs dur).err = none ∧
    (Store m rt w waddr data dcfgs dur).proposals.length
      + (Store m rt w waddr data dcfgs dur).failed.length = dcfgs.length := by
  obtain ⟨he, hp, hf⟩ :=
    Store_eq_loop m rt w waddr data dcfgs dur f n dataCid addr w1 w2 w3 hTemp hCopy hImport hAddr
  refine ⟨he, ?_⟩
  rw [hp, hf, length_acceptedIds_add_failedConfigs]
  have := congrArg List.length (map_fst_verdicts m rt dataCid addr dur dcfgs w3)
  simpa using this

/-- C1 at three configs, the second with an unparsable provider address. -/
theorem Store_accounts_for_every_config_witness :
    (Store (demo.module []) (demo.runtime .sent) 0 "t0client" [1, 2, 3]
        demo.threeConfigs 1000).err = none ∧
    (Store (demo.module []) (demo.runtime .sent) 0 "t0client" [1, 2, 3]
        demo.threeConfigs 1000).proposals.length
      + (Store (demo.module []) (demo.runtime .sent) 0 "t0client" [1, 2, 3]
        demo.threeConfigs 1000).failed.length = 3 :=
  Store_accounts_for_every_config (demo.module []) (demo.runtime .sent) 0 "t0client"
    [1, 2, 3] demo.threeConfigs 1000 "imports/import-1" 3 ⟨"data-imports/import-1"⟩
    ⟨"t0client"⟩ 0 0 0 rfl rfl rfl rfl

/-- C2: when no fatal precondition fails, `verdicts` lists every config in input order,
with an id exactly for those whose provider address parses and whose `ClientStartDeal`
call returns no error; `failed` is the configs without an id, in input order (a sublist
of `dcfgs`), `proposals` is the ids of the others, in input order, and the error is nil.
So an accepted config always yields its id, whatever happens to the other configs. -/
theorem Store_results_in_input_order (m : Module σ) (rt : Runtime σ) (w : σ)
    (waddr : String) (data : List Nat) (dcfgs : List DealConfig) (dur : Nat)
    (f : String) (n : Nat) (dataCid : Cid) (addr : Address) (w1 w2 w3 : σ)
    (hTemp : rt.TempFile w m.cfg.ImportPath "import-*" = (.ok f, w1))
    (hCopy : rt.Copy w1 f data = (.ok n, w2))
    (hImport : m.api.ClientImport w2 f = (.ok dataCid, w3))
    (hAddr : rt.NewFromString waddr = .ok addr) :
    (Store m rt w waddr data dcfgs dur).err = none ∧
    (verdicts m rt dataCid addr dur w3 dcfgs).map Prod.fst = dcfgs ∧
    (Store m rt w waddr data dcfgs dur).failed
      = failedConfigs (verdicts m rt dataCid addr dur w3 dcfgs) ∧
    (Store m rt w waddr data dcfgs dur).failed.Sublist dcfgs ∧
    (Store m rt w waddr data dcfgs dur).proposals
      = acceptedIds (verdicts m rt dataCid addr dur w3 dcfgs) ∧
    (∀ c id, (c, some id) ∈ verdicts m rt dataCid addr dur w3 dcfgs →
      id ∈ (Store m rt w waddr data dcfgs dur).proposals) := by
  obtain ⟨he, hp, hf⟩ :=
    Store_eq_loop m rt w waddr data dcfgs dur f n dataCid addr w1 w2 w3 hTemp hCopy hImport hAddr
  have hm := map_fst_verdicts m rt dataCid addr dur dcfgs w3
  refine ⟨he, hm, hf, ?_, hp, ?_⟩
  · have hs := failedConfigs_sublist (verdicts m rt dataCid addr dur w3 dcfgs)
    rw [hm] at hs
    rw [hf]
    exact hs
  · intro c id hmem
    rw [hp]
    exact List.mem_filterMap.mpr ⟨(c, some id), hmem, rfl⟩

/-- C2 at three configs whose second has an unparsable provider address: two proposal
ids, the second config failed, error nil. -/
theorem Store_results_in_input_order_witness :
    (Store (demo.module []) (demo.runtime .sent) 0 "t0client" [1, 2, 3]
        demo.threeConfigs 1000).err = none ∧
    (Store (demo.module []) (demo.runtime .sent) 0 "t0client" [1, 2, 3]
        demo.threeConfigs 1000).proposals = [⟨"deal-t01"⟩, ⟨"deal-t03"⟩] ∧
    (Store (demo.module []) (demo.runtime .sent) 0 "t0client" [1, 2, 3]
        demo.threeConfigs 1000).failed = [⟨"bad", 6⟩] := by
  have h := Store_results_in_input_order (demo.module []) (demo.runtime .sent) 0 "t0client"
    [1, 2, 3] demo.threeConfigs 1000 "imports/import-1" 3 ⟨"data-imports/import-1"⟩
    ⟨"t0client"⟩ 0 0 0 rfl rfl rfl rfl
  refine ⟨h.1, ?_, ?_⟩
  · rw [h.2.2.2.2.1]; decide
  · rw [h.2.2.1]; decide

/-- C5: if `ClientImport` fails (it is reached and returns an error), or the wallet
address string does not parse, then for every list of configs `Store` returns a non-nil
error with no proposal ids and no failed configs, and `ClientStartDeal` is not called. -/
theorem Store_fatal_precondition (m : Module σ) (rt : Runtime σ) (w : σ)
    (waddr : String) (data : List Nat) (dcfgs : List DealConfig) (dur : Nat)
    (h : (∃ f n e w1 w2 w3, rt.TempFile w m.cfg.ImportPath "import-*" = (.ok f, w1) ∧
            rt.Copy w1 f data = (.ok n, w2) ∧ m.api.ClientImport w2 f = (.error e, w3)) ∨
         (∃ e, rt.NewFromString waddr = .error e)) :
    (∃ e, (Store m rt w waddr data dcfgs dur).err = some e) ∧
    (Store m rt w waddr data dcfgs dur).proposals = [] ∧
    (Store m rt w waddr data dcfgs dur).failed = [] ∧
    (Store m rt w waddr data dcfgs dur).started = [] := by
  rcases h with ⟨f, n, e, w1, w2, w3, hT, hC, hI⟩ | ⟨e, hA⟩
  · simp [Store, hT, hC, hI]
  · rcases hT : rt.TempFile w m.cfg.ImportPath "import-*" with ⟨r1, w1⟩
    cases r1 with
    | error e1 => simp [Store, hT]
    | ok f =>
      rcases hC : rt.Copy w1 f data with ⟨r2, w2⟩
      cases r2 with
      | error e2 => simp [Store, hT, hC]
      | ok n =>
        rcases hI : m.api.ClientImport w2 f with ⟨r3, w3⟩
        cases r3 with
        | error e3 => simp [Store, hT, hC, hI]
        | ok dataCid => simp [Store, hT, hC, hI, hA]

/-- C5 with three configs: at a wallet address that does not parse, and at a file the node
cannot import. -/
theorem Store_fatal_precondition_witness :
    ((∃ e, (Store (demo.module []) (demo.runtime .sent) 0 "bad" [1, 2, 3]
        demo.threeConfigs 1000).err = some e) ∧
     (Store (demo.module []) (demo.runtime .sent) 0 "bad" [1, 2, 3]
        demo.threeConfigs 1000).proposals = [] ∧
     (Store (demo.module []) (demo.runtime .sent) 0 "bad" [1, 2, 3]
        demo.threeConfigs 1000).failed = [] ∧
     (Store (demo.module []) (demo.runtime .sent) 0 "bad" [1, 2, 3]
        demo.threeConfigs 1000).started = []) ∧
    ((∃ e, (Store ⟨demo.node [], ⟨"offline"⟩⟩ (demo.runtime .sent) 0 "t0client" [1, 2, 3]
        demo.threeConfigs 1000).err = some e) ∧
     (Store ⟨demo.node [], ⟨"offline"⟩⟩ (demo.runtime .sent) 0 "t0client" [1, 2, 3]
        demo.threeConfigs 1000).proposals = [] ∧
     (Store ⟨demo.node [], ⟨"offline"⟩⟩ (demo.runtime .sent) 0 "t0client" [1, 2, 3]
        demo.threeConfigs 1000).failed = [] ∧
     (Store ⟨demo.node [], ⟨"offline"⟩⟩ (demo.runtime .sent) 0 "t0client" [1, 2, 3]
        demo.threeConfigs 1000).started = []) :=
  ⟨Store_fatal_precondition (demo.module []) (demo.runtime .sent) 0 "bad" [1, 2, 3]
      demo.threeConfigs 1000 (Or.inr ⟨"unknown address protocol", rfl⟩),
   Store_fatal_precondition ⟨demo.node [], ⟨"offline"⟩⟩ (demo.runtime .sent) 0 "t0client"
      [1, 2, 3] demo.threeConfigs 1000
      (Or.inl ⟨"offline/import-1", 3, "import failed", 0, 0, 0, rfl, rfl, rfl⟩)⟩

/-! ### The watcher: one tick -/

theorem collapseFrom_append (prev : Option Nat) (a b : List Nat) :
    collapseFrom prev (a ++ b) = collapseFrom prev a ++ collapseFrom (lastObs prev a) b := by
  induction a generalizing prev with
  | nil => rfl
  | cons x xs ih =>
    by_cases h : prev = some x
    · simp [collapseFrom, lastObs, h, ih]
    · simp [collapseFrom, lastObs, h, ih]

theorem lastObs_append (prev : Option Nat) (a b : List Nat) :
    lastObs prev (a ++ b) = lastObs (lastObs prev a) b := by
  induction a generalizing prev with
  | nil => rfl
  | cons x xs ih => simp [lastObs, ih]

theorem destutter'_eq_cons_tail (a : Nat) (l : List Nat) :
    l.destutter' (· ≠ ·) a = a :: (l.destutter' (· ≠ ·) a).tail := by
  induction l generalizing a with
  | nil => rfl
  | cons x xs ih =>
    by_cases h : a = x
    · subst h
      simpa [List.destutter'] using ih a
    · simp [List.destutter', h]

theorem collapseFrom_some_eq (a : Nat) (l : List Nat) :
    collapseFrom (some a) l = (l.destutter' (· ≠ ·) a).tail := by
  induction l generalizing a with
  | nil => rfl
  | cons x xs ih =>
    by_cases h : a = x
    · subst h
      simp [collapseFrom, List.destutter', ih]
    · rw [collapseFrom, if_neg (by simpa using h), ih x, ← destutter'_eq_cons_tail]
      simp [List.destutter', h]

/-- Collapsing from no previous entry is Mathlib's `List.destutter (· ≠ ·)`: the list
with consecutive duplicates collapsed. -/
theorem collapseFrom_none_eq (l : List Nat) :
    collapseFrom none l = l.destutter (· ≠ ·) := by
  cases l with
  | nil => rfl
  | cons x xs =>
    rw [collapseFrom, if_neg (by simp), collapseFrom_some_eq, ← destutter'_eq_cons_tail]
    rfl

theorem lastState_setState_self (cs : StateMap) (p : Cid) (d : api.DealInfo) :
    lastState (setState cs p d) p = some d.State := by
  simp [lastState, setState]

theorem lastState_setState_ne (cs : StateMap) (p q : Cid) (d : api.DealInfo) (h : p ≠ q) :
    lastState (setState cs q d) p = lastState cs p := by
  simp [lastState, setState, h]

theorem isNewState_iff (cs : StateMap) (p : Cid) (d : api.DealInfo) :
    isNewState cs p d = true ↔ lastState cs p ≠ some d.State := by
  unfold isNewState lastState
  cases cs p with
  | none => simp
  | some old => simp

/-- The struct literal panics exactly when the fetched state is not an index of
`api.DealStates`. -/
theorem newState_eq_none_iff (rt : Runtime σ) (d : api.DealInfo) :
    newState rt d = none ↔ ¬ d.State < api.DealStates.length := by
  unfold newState
  cases h : api.DealStates.get? d.State with
  | none => simpa [List.get?_eq_none] using h
  | some name =>
    have := List.get?_eq_some.mp h
    simp [this.1]

theorem newState_StateID (rt : Runtime σ) (d : api.DealInfo) (ev : DealInfo)
    (h : newState rt d = some ev) : ev.StateID = d.State := by
  unfold newState at h
  split at h
  · exact absurd h (by simp)
  · simp only [Option.some.injEq] at h
    rw [← h]

/-- The five ways the iteration for the first id of a tick can go: the fetch fails; the
state is the stored one; the state is new and outside the table (panic); the send
resolves to `ctx.Done()` (return); the send is received or times out. -/
theorem pushNewChanges_cons_cases (m : Module σ) (rt : Runtime σ) (cs : StateMap) (w : σ)
    (pcid : Cid) (rest : List Cid) :
    (∃ e w1, m.api.ClientGetDealInfo w pcid = (.error e, w1) ∧
      pushNewChanges m rt cs w (pcid :: rest)
        = (pushNewChanges m rt cs w1 rest).after ⟨pcid, .error e, none⟩) ∨
    (∃ d w1, m.api.ClientGetDealInfo w pcid = (.ok d, w1) ∧ lastState cs pcid = some d.State ∧
      pushNewChanges m rt cs w (pcid :: rest)
        = (pushNewChanges m rt cs w1 rest).after ⟨pcid, .ok d, none⟩) ∨
    (∃ d w1, m.api.ClientGetDealInfo w pcid = (.ok d, w1) ∧ lastState cs pcid ≠ some d.State ∧
      ¬ d.State < api.DealStates.length ∧
      pushNewChanges m rt cs w (pcid :: rest)
        = ⟨setState cs pcid d, [⟨pcid, .ok d, none⟩], .panicked indexOutOfRange, w1⟩) ∨
    (∃ d w1 ev w2, m.api.ClientGetDealInfo w pcid = (.ok d, w1) ∧
      lastState cs pcid ≠ some d.State ∧ newState rt d = some ev ∧
      rt.selectSend w1 ev = (.ctxDone, w2) ∧
      pushNewChanges m rt cs w (pcid :: rest)
        = ⟨setState cs pcid d, [⟨pcid, .ok d, some (ev, .ctxDone)⟩], .returned none, w2⟩) ∨
    (∃ d w1 ev o w2, m.api.ClientGetDealInfo w pcid = (.ok d, w1) ∧
      lastState cs pcid ≠ some d.State ∧ newState rt d = some ev ∧
      rt.selectSend w1 ev = (o, w2) ∧ o ≠ .ctxDone ∧
      pushNewChanges m rt cs w (pcid :: rest)
        = (pushNewChanges m rt (setState cs pcid d) w2 rest).after
            ⟨pcid, .ok d, some (ev, o)⟩) := by
  rcases hf : m.api.ClientGetDealInfo w pcid with ⟨r, w1⟩
  cases r with
  | error e => exact Or.inl ⟨e, w1, rfl, by simp [pushNewChanges, hf]⟩
  | ok d =>
    by_cases hn : isNewState cs pcid d = true
    · have hne := (isNewState_iff cs pcid d).mp hn
      cases hev : newState rt d with
      | none =>
        exact Or.inr (Or.inr (Or.inl ⟨d, w1, rfl, hne, (newState_eq_none_iff rt d).mp hev,
          by simp [pushNewChanges, hf, hn, hev]⟩))
      | some ev =>
        rcases hs : rt.selectSend w1 ev with ⟨o, w2⟩
        cases o with
        | ctxDone =>
          exact Or.inr (Or.inr (Or.inr (Or.inl ⟨d, w1, ev, w2, rfl, hne, hev, hs,
            by simp [pushNewChanges, hf, hn, hev, hs]⟩)))
        | sent =>
          exact Or.inr (Or.inr (Or.inr (Or.inr ⟨d, w1, ev, .sent, w2, rfl, hne, hev, hs,
            by simp, by simp [pushNewChanges, hf, hn, hev, hs]⟩)))
        | timedOut =>
          exact Or.inr (Or.inr (Or.inr (Or.inr ⟨d, w1, ev, .timedOut, w2, rfl, hne, hev, hs,
            by simp, by simp [pushNewChanges, hf, hn, hev, hs]⟩)))
    · have heq : lastState cs pcid = some d.State := by
        by_contra hc
        exact hn ((isNewState_iff cs pcid d).mpr hc)
      exact Or.inr (Or.inl ⟨d, w1, rfl, heq, by simp [pushNewChanges, hf, hn]⟩)

/-- One call of `pushNewChanges`, for an id `p` whose fetched states are indices of the
table: a send is attempted for `p` exactly when the fetched stateID differs from the one
the map held, and the map ends up holding the last fetched stateID.  This holds whatever
the sends resolve to. -/
theorem pushNewChanges_inv (m : Module σ) (rt : Runtime σ) (p : Cid) (ps : List Cid)
    (cs : StateMap) (w : σ)
    (hin : ∀ s ∈ (pushNewChanges m rt cs w ps).steps, s.pcid = p → s.inTable = true) :
    attempted p (pushNewChanges m rt cs w ps).steps
      = collapseFrom (lastState cs p) (observed p (pushNewChanges m rt cs w ps).steps) ∧
    lastState (pushNewChanges m rt cs w ps).currState p
      = lastObs (lastState cs p) (observed p (pushNewChanges m rt cs w ps).steps) := by
  induction ps generalizing cs w with
  | nil => simp [pushNewChanges, attempted, observed, collapseFrom, lastObs]
  | cons pcid rest ih =>
    rcases pushNewChanges_cons_cases m rt cs w pcid rest with
      ⟨e, w1, _, heq⟩ | ⟨d, w1, _, hsame, heq⟩ | ⟨d, w1, _, hne, hout, heq⟩ |
      ⟨d, w1, ev, w2, _, hne, hev, _, heq⟩ | ⟨d, w1, ev, o, w2, _, hne, hev, _, _, heq⟩
    · rw [heq] at hin ⊢
      simp only [PushRun.after, List.mem_cons] at hin
      have h := ih cs w1 (fun s hs => hin s (Or.inr hs))
      simpa [PushRun.after, attempted, observed] using h
    · rw [heq] at hin ⊢
      simp only [PushRun.after, List.mem_cons] at hin
      have h := ih cs w1 (fun s hs => hin s (Or.inr hs))
      by_cases hp : pcid = p
      · subst hp
        simp only [attempted, observed] at h
        simp [PushRun.after, attempted, observed, collapseFrom, lastObs, hsame, h]
      · simpa [PushRun.after, attempted, observed, hp] using h
    · rw [heq] at hin ⊢
      by_cases hp : pcid = p
      · have hbad := hin _ (List.mem_singleton.mpr rfl) hp
        simp [Step.inTable, hout] at hbad
      · simp [attempted, observed, collapseFrom, lastObs, hp,
          lastState_setState_ne cs p pcid d (Ne.symm hp)]
    · rw [heq]
      have hid := newState_StateID rt d ev hev
      by_cases hp : pcid = p
      · subst hp
        simp [attempted, observed, collapseFrom, lastObs, hne, hid, lastState_setState_self]
      · simp [attempted, observed, collapseFrom, lastObs, hp,
          lastState_setState_ne cs p pcid d (Ne.symm hp)]
    · rw [heq] at hin ⊢
      simp only [PushRun.after, List.mem_cons] at hin
      have hid := newState_StateID rt d ev hev
      have h := ih (setState cs pcid d) w2 (fun s hs => hin s (Or.inr hs))
      by_cases hp : pcid = p
      · subst hp
        rw [lastState_setState_self] at h
        simp only [attempted, observed] at h
        simp [PushRun.after, attempted, observed, collapseFrom, lastObs, hne, hid, h]
      · rw [lastState_setState_ne cs p pcid d (Ne.symm hp)] at h
        simpa [PushRun.after, attempted, observed, hp] using h

/-- Every iteration of `pushNewChanges` is coherent. -/
theorem pushNewChanges_coherent (m : Module σ) (rt : Runtime σ) (ps : List Cid)
    (cs : StateMap) (w : σ) :
    ∀ s ∈ (pushNewChanges m rt cs w ps).steps, s.Coherent rt := by
  induction ps generalizing cs w with
  | nil => simp [pushNewChanges]
  | cons pcid rest ih =>
    have hco : ∀ (d : api.DealInfo) (w1 w2 : σ) (ev : DealInfo) (o : SendOutcome),
        newState rt d = some ev → rt.selectSend w1 ev = (o, w2) →
        Step.Coherent rt ⟨pcid, .ok d, some (ev, o)⟩ := by
      intro d w1 w2 ev o hev hs ev2 o2 h
      simp only [Option.some.injEq, Prod.mk.injEq] at h
      obtain ⟨h1, h2⟩ := h
      subst h1 h2
      exact ⟨d, w1, rfl, hev, by rw [hs]⟩
    rcases pushNewChanges_cons_cases m rt cs w pcid rest with
      ⟨e, w1, _, heq⟩ | ⟨d, w1, _, _, heq⟩ | ⟨d, w1, _, _, _, heq⟩ |
      ⟨d, w1, ev, w2, _, _, hev, hs, heq⟩ | ⟨d, w1, ev, o, w2, _, _, hev, hs, _, heq⟩
    · rw [heq]
      intro s hs
      simp only [PushRun.after, List.mem_cons] at hs
      rcases hs with rfl | hs
      · intro ev o h; simp at h
      · exact ih cs w1 s hs
    · rw [heq]
      intro s hs
      simp only [PushRun.after, List.mem_cons] at hs
      rcases hs with rfl | hs
      · intro ev o h; simp at h
      · exact ih cs w1 s hs
    · rw [heq]
      intro s hs
      simp only [List.mem_singleton] at hs
      subst hs
      intro ev o h; simp at h
    · rw [heq]
      intro s hmem
      simp only [List.mem_singleton] at hmem
      subst hmem
      exact hco d w1 w2 ev .ctxDone hev hs
    · rw [heq]
      intro s hmem
      simp only [PushRun.after, List.mem_cons] at hmem
      rcases hmem with rfl | hmem
      · exact hco d w1 w2 ev o hev hs
      · exact ih (setState cs pcid d) w2 s hmem

/-- `pushNewChanges` never returns an error: it returns nil, or panics on the table
index. -/
theorem pushNewChanges_exit (m : Module σ) (rt : Runtime σ) (ps : List Cid)
    (cs : StateMap) (w : σ) :
    (pushNewChanges m rt cs w ps).exit = .returned none ∨
    (pushNewChanges m rt cs w ps).exit = .panicked indexOutOfRange := by
  induction ps generalizing cs w with
  | nil => exact Or.inl rfl
  | cons pcid rest ih =>
    rcases pushNewChanges_cons_cases m rt cs w pcid rest with
      ⟨e, w1, _, heq⟩ | ⟨d, w1, _, _, heq⟩ | ⟨d, w1, _, _, _, heq⟩ |
      ⟨d, w1, ev, w2, _, _, _, _, heq⟩ | ⟨d, w1, ev, o, w2, _, _, _, _, _, heq⟩
    · rw [heq]; exact ih cs w1
    · rw [heq]; exact ih cs w1
    · rw [heq]; exact Or.inr rfl
    · rw [heq]; exact Or.inl rfl
    · rw [heq]; exact ih (setState cs pcid d) w2

/-- A tick in which every fetched state is an index of the table returns nil. -/
theorem pushNewChanges_returns (m : Module σ) (rt : Runtime σ) (ps : List Cid)
    (cs : StateMap) (w : σ)
    (hin : ∀ s ∈ (pushNewChanges m rt cs w ps).steps, s.inTable = true) :
    (pushNewChanges m rt cs w ps).exit = .returned none := by
  induction ps generalizing cs w with
  | nil => rfl
  | cons pcid rest ih =>
    rcases pushNewChanges_cons_cases m rt cs w pcid rest with
      ⟨e, w1, _, heq⟩ | ⟨d, w1, _, _, heq⟩ | ⟨d, w1, _, _, hout, heq⟩ |
      ⟨d, w1, ev, w2, _, _, _, _, heq⟩ | ⟨d, w1, ev, o, w2, _, _, _, _, _, heq⟩
    · rw [heq] at hin ⊢
      simp only [PushRun.after, List.mem_cons] at hin
      exact ih cs w1 (fun s hs => hin s (Or.inr hs))
    · rw [heq] at hin ⊢
      simp only [PushRun.after, List.mem_cons] at hin
      exact ih cs w1 (fun s hs => hin s (Or.inr hs))
    · rw [heq] at hin
      have hbad := hin _ (List.mem_singleton.mpr rfl)
      simp [Step.inTable, hout] at hbad
    · rw [heq]
    · rw [heq] at hin ⊢
      simp only [PushRun.after, List.mem_cons] at hin
      exact ih (setState cs pcid d) w2 (fun s hs => hin s (Or.inr hs))

/-- A tick in which no send resolves to `ctx.Done()` and every fetched state is an index
of the table makes one iteration for every tracked id, in the order of the list: nothing
else ends the loop early. -/
theorem pushNewChanges_pcids (m : Module σ) (rt : Runtime σ) (ps : List Cid)
    (cs : StateMap) (w : σ)
    (hnc : ∀ s ∈ (pushNewChanges m rt cs w ps).steps, ∀ ev, s.attempt ≠ some (ev, .ctxDone))
    (hin : ∀ s ∈ (pushNewChanges m rt cs w ps).steps, s.inTable = true) :
    (pushNewChanges m rt cs w ps).steps.map Step.pcid = ps := by
  induction ps generalizing cs w with
  | nil => rfl
  | cons pcid rest ih =>
    rcases pushNewChanges_cons_cases m rt cs w pcid rest with
      ⟨e, w1, _, heq⟩ | ⟨d, w1, _, _, heq⟩ | ⟨d, w1, _, _, hout, heq⟩ |
      ⟨d, w1, ev, w2, _, _, _, _, heq⟩ | ⟨d, w1, ev, o, w2, _, _, _, _, _, heq⟩
    · rw [heq] at hnc hin ⊢
      simp only [PushRun.after, List.map_cons, List.mem_cons] at hnc hin ⊢
      rw [ih cs w1 (fun s hs => hnc s (Or.inr hs)) (fun s hs => hin s (Or.inr hs))]
    · rw [heq] at hnc hin ⊢
      simp only [PushRun.after, List.map_cons, List.mem_cons] at hnc hin ⊢
      rw [ih cs w1 (fun s hs => hnc s (Or.inr hs)) (fun s hs => hin s (Or.inr hs))]
    · rw [heq] at hin
      have hbad := hin _ (List.mem_singleton.mpr rfl)
      simp [Step.inTable, hout] at hbad
    · rw [heq] at hnc
      exact absurd rfl (hnc _ (List.mem_singleton.mpr rfl) ev)
    · rw [heq] at hnc hin ⊢
      simp only [PushRun.after, List.map_cons, List.mem_cons] at hnc hin ⊢
      rw [ih (setState cs pcid d) w2 (fun s hs => hnc s (Or.inr hs))
        (fun s hs => hin s (Or.inr hs))]

/-- A coherent iteration has no send resolved to `ctx.Done()` when `selectSend` never
resolves so. -/
theorem Step.Coherent.no_ctxDone {rt : Runtime σ} {s : Step} (hc : s.Coherent rt)
    (hnc : ∀ w ev, (rt.selectSend w ev).1 ≠ .ctxDone) (ev : DealInfo) :
    s.attempt ≠ some (ev, .ctxDone) := by
  intro h
  obtain ⟨d, w, _, _, ho⟩ := hc ev .ctxDone h
  exact hnc w ev ho

/-- Every iteration of a tick is for a tracked id. -/
theorem pushNewChanges_pcid_mem (m : Module σ) (rt : Runtime σ) (ps : List Cid)
    (cs : StateMap) (w : σ) :
    ∀ s ∈ (pushNewChanges m rt cs w ps).steps, s.pcid ∈ ps := by
  induction ps generalizing cs w with
  | nil => simp [pushNewChanges]
  | cons pcid rest ih =>
    rcases pushNewChanges_cons_cases m rt cs w pcid rest with
      ⟨e, w1, _, heq⟩ | ⟨d, w1, _, _, heq⟩ | ⟨d, w1, _, _, _, heq⟩ |
      ⟨d, w1, ev, w2, _, _, _, _, heq⟩ | ⟨d, w1, ev, o, w2, _, _, _, _, _, heq⟩
    · rw [heq]
      intro s hs
      simp only [PushRun.after, List.mem_cons] at hs
      rcases hs with rfl | hs
      · exact List.mem_cons_self _ _
      · exact List.mem_cons_of_mem _ (ih cs w1 s hs)
    · rw [heq]
      intro s hs
      simp only [PushRun.after, List.mem_cons] at hs
      rcases hs with rfl | hs
      · exact List.mem_cons_self _ _
      · exact List.mem_cons_of_mem _ (ih cs w1 s hs)
    · rw [heq]
      intro s hs
      rw [List.mem_singleton.mp hs]
      exact List.mem_cons_self _ _
    · rw [heq]
      intro s hs
      rw [List.mem_singleton.mp hs]
      exact List.mem_cons_self _ _
    · rw [heq]
      intro s hs
      simp only [PushRun.after, List.mem_cons] at hs
      rcases hs with rfl | hs
      · exact List.mem_cons_self _ _
      · exact List.mem_cons_of_mem _ (ih (setState cs pcid d) w2 s hs)

/-! ### The watcher: the goroutine -/

theorem allSteps_cons (t : List Step) (ticks : List (List Step)) :
    allSteps (t :: ticks) = t ++ allSteps ticks := by
  simp [allSteps]

theorem attempted_append (p : Cid) (a b : List Step) :
    attempted p (a ++ b) = attempted p a ++ attempted p b := by
  simp [attempted]

theorem observed_append (p : Cid) (a b : List Step) :
    observed p (a ++ b) = observed p a ++ observed p b := by
  simp [observed]

/-- A receive from the feed, open or closed, runs a tick: when `pushNewChanges` returns
the goroutine goes on with the next `select`, when it panics the goroutine ends. -/
theorem watchLoop_cons_cases (m : Module σ) (rt : Runtime σ) (proposals : List Cid)
    (sel : LoopSelect) (rest : List LoopSelect) (cs : StateMap) (w : σ)
    (hsel : sel ≠ .ctxDone) :
    ((pushNewChanges m rt cs w proposals).exit = .returned none ∧
      watchLoop m rt proposals cs w (sel :: rest)
        = (watchLoop m rt proposals (pushNewChanges m rt cs w proposals).currState
            (pushNewChanges m rt cs w proposals).world rest).afterTick
            (pushNewChanges m rt cs w proposals).steps) ∨
    ((pushNewChanges m rt cs w proposals).exit = .panicked indexOutOfRange ∧
      watchLoop m rt proposals cs w (sel :: rest)
        = ⟨none, [(pushNewChanges m rt cs w proposals).steps], true, some indexOutOfRange,
            (pushNewChanges m rt cs w proposals).currState,
            (pushNewChanges m rt cs w proposals).world⟩) := by
  rcases pushNewChanges_exit m rt proposals cs w with h | h
  · left
    refine ⟨h, ?_⟩
    cases sel with
    | ctxDone => exact absurd rfl hsel
    | recv => simp [watchLoop, tick, h]
    | closed => simp [watchLoop, tick, h]
  · right
    refine ⟨h, ?_⟩
    cases sel with
    | ctxDone => exact absurd rfl hsel
    | recv => simp [watchLoop, tick, h]
    | closed => simp [watchLoop, tick, h]

/-- Over any resolutions of the goroutine's `select`, the sends attempted for an id `p`
whose fetched states are indices of the table are the stateIDs fetched for `p` with every
repetition of the previous one dropped. -/
theorem watchLoop_inv (m : Module σ) (rt : Runtime σ) (proposals : List Cid) (p : Cid)
    (sels : List LoopSelect) (cs : StateMap) (w : σ)
    (hin : ∀ s ∈ allSteps (watchLoop m rt proposals cs w sels).ticks,
      s.pcid = p → s.inTable = true) :
    attempted p (allSteps (watchLoop m rt proposals cs w sels).ticks)
      = collapseFrom (lastState cs p)
          (observed p (allSteps (watchLoop m rt proposals cs w sels).ticks)) := by
  induction sels generalizing cs w with
  | nil => simp [watchLoop, allSteps, attempted, observed, collapseFrom]
  | cons sel rest ih =>
    by_cases hsel : sel = .ctxDone
    · subst hsel
      simp [watchLoop, allSteps, attempted, observed, collapseFrom]
    · rcases watchLoop_cons_cases m rt proposals sel rest cs w hsel with ⟨_, heq⟩ | ⟨_, heq⟩
      · rw [heq] at hin ⊢
        simp only [WatchRun.afterTick, allSteps_cons, List.mem_append] at hin
        obtain ⟨h1, h2⟩ := pushNewChanges_inv m rt p proposals cs w
          (fun s hs => hin s (Or.inl hs))
        simp only [WatchRun.afterTick, allSteps_cons, attempted_append, observed_append,
          collapseFrom_append]
        rw [h1, ih _ _ (fun s hs => hin s (Or.inr hs)), h2]
      · rw [heq] at hin ⊢
        simp only [allSteps, List.flatten_cons, List.flatten_nil, List.append_nil] at hin ⊢
        exact (pushNewChanges_inv m rt p proposals cs w hin).1

/-- Each tick is the list of iterations of one call of `pushNewChanges`. -/
theorem watchLoop_ticks (m : Module σ) (rt : Runtime σ) (proposals : List Cid)
    (sels : List LoopSelect) (cs : StateMap) (w : σ) :
    ∀ t ∈ (watchLoop m rt proposals cs w sels).ticks,
      ∃ cs1 w1, t = (pushNewChanges m rt cs1 w1 proposals).steps := by
  induction sels generalizing cs w with
  | nil => simp [watchLoop]
  | cons sel rest ih =>
    by_cases hsel : sel = .ctxDone
    · subst hsel
      simp [watchLoop]
    · rcases watchLoop_cons_cases m rt proposals sel rest cs w hsel with ⟨_, heq⟩ | ⟨_, heq⟩
      · rw [heq]
        intro t ht
        simp only [WatchRun.afterTick, List.mem_cons] at ht
        rcases ht with rfl | ht
        · exact ⟨cs, w, rfl⟩
        · exact ih _ _ t ht
      · rw [heq]
        intro t ht
        simp only [List.mem_singleton] at ht
        exact ⟨cs, w, ht⟩

theorem watchLoop_coherent (m : Module σ) (rt : Runtime σ) (proposals : List Cid)
    (sels : List LoopSelect) (cs : StateMap) (w : σ) :
    ∀ t ∈ (watchLoop m rt proposals cs w sels).ticks, ∀ s ∈ t, s.Coherent rt := by
  intro t ht
  obtain ⟨cs1, w1, rfl⟩ := watchLoop_ticks m rt proposals sels cs w t ht
  exact pushNewChanges_coherent m rt proposals cs1 w1

/-- When every fetched state is an index of the table, the goroutine does not panic and
runs one tick for every receive from the feed that comes before the first `ctx.Done()`,
whether the receive is a notification or comes from the closed feed. -/
theorem watchLoop_ticks_length (m : Module σ) (rt : Runtime σ) (proposals : List Cid)
    (sels : List LoopSelect) (cs : StateMap) (w : σ)
    (hin : ∀ s ∈ allSteps (watchLoop m rt proposals cs w sels).ticks, s.inTable = true) :
    (watchLoop m rt proposals cs w sels).panic = none ∧
    (watchLoop m rt proposals cs w sels).ticks.length
      = (sels.takeWhile (fun x => x ≠ .ctxDone)).length := by
  induction sels generalizing cs w with
  | nil => exact ⟨rfl, rfl⟩
  | cons sel rest ih =>
    by_cases hsel : sel = .ctxDone
    · subst hsel
      simp [watchLoop]
    · rcases watchLoop_cons_cases m rt proposals sel rest cs w hsel with ⟨_, heq⟩ | ⟨hp, heq⟩
      · rw [heq] at hin ⊢
        simp only [WatchRun.afterTick, allSteps_cons, List.mem_append] at hin
        obtain ⟨h1, h2⟩ := ih _ _ (fun s hs => hin s (Or.inr hs))
        refine ⟨h1, ?_⟩
        simp [WatchRun.afterTick, h2, List.takeWhile_cons, hsel]
      · rw [heq] at hin
        simp only [allSteps, List.flatten_cons, List.flatten_nil, List.append_nil] at hin
        rw [pushNewChanges_returns m rt proposals cs w hin] at hp
        exact absurd hp (by simp)

/-- A goroutine that has not panicked has returned, closing the channel, exactly when a
`select` resolved to `ctx.Done()`. -/
theorem watchLoop_chClosed (m : Module σ) (rt : Runtime σ) (proposals : List Cid)
    (sels : List LoopSelect) (cs : StateMap) (w : σ)
    (hp : (watchLoop m rt proposals cs w sels).panic = none) :
    (watchLoop m rt proposals cs w sels).chClosed = true ↔ LoopSelect.ctxDone ∈ sels := by
  induction sels generalizing cs w with
  | nil => simp [watchLoop]
  | cons sel rest ih =>
    by_cases hsel : sel = .ctxDone
    · subst hsel
      simp [watchLoop]
    · rcases watchLoop_cons_cases m rt proposals sel rest cs w hsel with ⟨_, heq⟩ | ⟨_, heq⟩
      · rw [heq] at hp ⊢
        simp only [WatchRun.afterTick] at hp ⊢
        rw [ih _ _ hp]
        simp [Ne.symm hsel]
      · rw [heq] at hp
        simp at hp

theorem emitted_eq_attempted (p : Cid) (steps : List Step)
    (h : ∀ s ∈ steps, ∀ ev o, s.attempt = some (ev, o) → o = .sent) :
    emitted p steps = attempted p steps := by
  unfold emitted attempted
  apply List.filterMap_congr
  intro s hs
  by_cases hp : s.pcid = p
  · simp only [hp, if_true]
    cases ha : s.attempt with
    | none => rfl
    | some a =>
      obtain ⟨ev, o⟩ := a
      have ho := h s hs ev o ha
      subst ho
      rfl
  · simp [hp]

theorem head?_destutter (l : List Nat) : (l.destutter (· ≠ ·)).head? = l.head? := by
  cases l with
  | nil => rfl
  | cons x xs =>
    rw [List.destutter_cons', destutter'_eq_cons_tail]
    rfl

/-- The ticks of `Watch`: none when the subscription fails, otherwise those of the
goroutine started with an empty map. -/
theorem Watch_ticks (m : Module σ) (rt : Runtime σ) (w : σ) (proposals : List Cid)
    (sels : List LoopSelect) :
    (Watch m rt w proposals sels).ticks = [] ∨
    ∃ w1, (Watch m rt w proposals sels) = watchLoop m rt proposals (fun _ => none) w1 sels := by
  rcases hn : m.api.ChainNotify w with ⟨r, w1⟩
  cases r with
  | error e => left; simp [Watch, hn]
  | ok u => right; exact ⟨w1, by simp [Watch, hn]⟩

theorem Watch_coherent (m : Module σ) (rt : Runtime σ) (w : σ) (proposals : List Cid)
    (sels : List LoopSelect) :
    ∀ s ∈ allSteps (Watch m rt w proposals sels).ticks, s.Coherent rt := by
  intro s hs
  rcases Watch_ticks m rt w proposals sels with h | ⟨w1, h⟩
  · rw [h] at hs; simp [allSteps] at hs
  · rw [h] at hs
    obtain ⟨t, ht, hst⟩ := List.mem_flatten.mp hs
    exact watchLoop_coherent m rt proposals sels _ w1 t ht s hst

theorem Watch_pcid_mem (m : Module σ) (rt : Runtime σ) (w : σ) (proposals : List Cid)
    (sels : List LoopSelect) :
    ∀ s ∈ allSteps (Watch m rt w proposals sels).ticks, s.pcid ∈ proposals := by
  intro s hs
  rcases Watch_ticks m rt w proposals sels with h | ⟨w1, h⟩
  · rw [h] at hs; simp [allSteps] at hs
  · rw [h] at hs
    obtain ⟨t, ht, hst⟩ := List.mem_flatten.mp hs
    obtain ⟨cs1, w2, rfl⟩ := watchLoop_ticks m rt proposals sels _ w1 t ht
    exact pushNewChanges_pcid_mem m rt proposals cs1 w2 s hst

/-- Whatever the sends resolve to, the sends `Watch` attempts for an id `p` whose fetched
states are indices of the table are the stateIDs fetched for `p` with consecutive
duplicates collapsed. -/
theorem Watch_attempted (m : Module σ) (rt : Runtime σ) (w : σ) (proposals : List Cid)
    (sels : List LoopSelect) (p : Cid)
    (hin : ∀ s ∈ allSteps (Watch m rt w proposals sels).ticks,
      s.pcid = p → s.inTable = true) :
    attempted p (allSteps (Watch m rt w proposals sels).ticks)
      = (observed p (allSteps (Watch m rt w proposals sels).ticks)).destutter (· ≠ ·) := by
  rcases Watch_ticks m rt w proposals sels with h | ⟨w1, h⟩
  · rw [h]; simp [allSteps, attempted, observed]
  · rw [h] at hin ⊢
    rw [watchLoop_inv m rt proposals p sels _ w1 hin, ← collapseFrom_none_eq]
    rfl

/-- When no send resolves to `ctx.Done()` and every fetched state is an index of the
table, every tick of `Watch` makes one iteration for every tracked id, in the order of the
list. -/
theorem Watch_ticks_cover (m : Module σ) (rt : Runtime σ) (w : σ) (proposals : List Cid)
    (sels : List LoopSelect) (hnc : ∀ w ev, (rt.selectSend w ev).1 ≠ .ctxDone)
    (hin : ∀ s ∈ allSteps (Watch m rt w proposals sels).ticks, s.inTable = true) :
    ∀ t ∈ (Watch m rt w proposals sels).ticks, t.map Step.pcid = proposals := by
  intro t ht
  have hin2 : ∀ s ∈ t, s.inTable = true :=
    fun s hs => hin s (List.mem_flatten.mpr ⟨t, ht, hs⟩)
  rcases Watch_ticks m rt w proposals sels with h | ⟨w1, h⟩
  · rw [h] at ht; simp at ht
  · rw [h] at ht
    obtain ⟨cs1, w2, rfl⟩ := watchLoop_ticks m rt proposals sels _ w1 t ht
    apply pushNewChanges_pcids
    · intro s hs ev
      exact (pushNewChanges_coherent m rt proposals cs1 w2 s hs).no_ctxDone hnc ev
    · exact hin2

/-- With a consumer that accepts every delivery, the events delivered for `p` are the
sends attempted for `p`. -/
theorem Watch_emitted_eq_attempted (m : Module σ) (rt : Runtime σ) (w : σ)
    (proposals : List Cid) (sels : List LoopSelect) (p : Cid)
    (hsend : ∀ w ev, (rt.selectSend w ev).1 = .sent) :
    emitted p (allSteps (Watch m rt w proposals sels).ticks)
      = attempted p (allSteps (Watch m rt w proposals sels).ticks) := by
  apply emitted_eq_attempted
  intro s hs ev o ha
  obtain ⟨d, w2, _, _, ho⟩ := Watch_coherent m rt w proposals sels s hs ev o ha
  rw [← ho]
  exact hsend w2 ev

/-- A `selectSend` that always resolves to `sent` never resolves to `ctx.Done()`. -/
theorem no_ctxDone_of_sent (rt : Runtime σ) (hsend : ∀ w ev, (rt.selectSend w ev).1 = .sent) :
    ∀ w ev, (rt.selectSend w ev).1 ≠ .ctxDone := by
  intro w2 ev h
  rw [hsend w2 ev] at h
  exact SendOutcome.noConfusion h

/-- C3, as the code runs it: a single proposal whose first fetch succeeds with stateID 8
(the table `api.DealStates` has the indices 0 to 7), with a consumer that accepts every
delivery: the map is written, the struct literal panics, and no event is emitted, though
the observed sequence with consecutive duplicates collapsed is `[8]`. -/
theorem Watch_state_outside_table_not_emitted :
    observed ⟨"P"⟩ (allSteps (Watch (demo.module [8]) (demo.runtime .sent) 0
        [⟨"P"⟩] [.recv]).ticks) = [8] ∧
    emitted ⟨"P"⟩ (allSteps (Watch (demo.module [8]) (demo.runtime .sent) 0
        [⟨"P"⟩] [.recv]).ticks) = [] ∧
    (Watch (demo.module [8]) (demo.runtime .sent) 0 [⟨"P"⟩] [.recv]).panic
      = some indexOutOfRange ∧
    ¬ (emitted ⟨"P"⟩ (allSteps (Watch (demo.module [8]) (demo.runtime .sent) 0
        [⟨"P"⟩] [.recv]).ticks)
      = (observed ⟨"P"⟩ (allSteps (Watch (demo.module [8]) (demo.runtime .sent) 0
        [⟨"P"⟩] [.recv]).ticks)).destutter (· ≠ ·)) := by
  decide

/-- C3, amended: with a consumer that accepts every delivery, over any finite sequence of
resolutions of the goroutine's `select`, starting from the empty session map, and provided
every stateID fetched for the tracked proposal `p` is an index of `api.DealStates`, the
stateIDs of the events delivered for `p` are the stateIDs fetched for `p` (a failed fetch
observes nothing) with consecutive duplicates collapsed; the first observation is emitted;
and when the stateIDs fetched for the other ids are indices of the table too, every tick
fetches every tracked id. -/
theorem Watch_emits_state_changes (m : Module σ) (rt : Runtime σ) (w : σ)
    (proposals : List Cid) (sels : List LoopSelect) (p : Cid)
    (hsend : ∀ w ev, (rt.selectSend w ev).1 = .sent)
    (hin : ∀ s ∈ allSteps (Watch m rt w proposals sels).ticks,
      s.pcid = p → s.inTable = true) :
    emitted p (allSteps (Watch m rt w proposals sels).ticks)
      = (observed p (allSteps (Watch m rt w proposals sels).ticks)).destutter (· ≠ ·) ∧
    (emitted p (allSteps (Watch m rt w proposals sels).ticks)).head?
      = (observed p (allSteps (Watch m rt w proposals sels).ticks)).head? ∧
    ((∀ s ∈ allSteps (Watch m rt w proposals sels).ticks, s.inTable = true) →
      ∀ t ∈ (Watch m rt w proposals sels).ticks, t.map Step.pcid = proposals) := by
  have hem := Watch_emitted_eq_attempted m rt w proposals sels p hsend
  have hat := Watch_attempted m rt w proposals sels p hin
  refine ⟨hem.trans hat, ?_, ?_⟩
  · rw [hem, hat, head?_destutter]
  · exact Watch_ticks_cover m rt w proposals sels (no_ctxDone_of_sent rt hsend)

/-- The amended C3 at two tracked ids over three ticks: the first is fetched in states
3, 3, 4 and the second in states 7, 7, 7. -/
theorem Watch_emits_state_changes_witness :
    emitted ⟨"P"⟩ (allSteps (Watch (demo.module [3, 7, 3, 7, 4, 7]) (demo.runtime .sent) 0
        [⟨"P"⟩, ⟨"Q"⟩] [.recv, .recv, .recv]).ticks) = [3, 4] ∧
    observed ⟨"P"⟩ (allSteps (Watch (demo.module [3, 7, 3, 7, 4, 7]) (demo.runtime .sent) 0
        [⟨"P"⟩, ⟨"Q"⟩] [.recv, .recv, .recv]).ticks) = [3, 3, 4] := by
  have h := Watch_emits_state_changes (demo.module [3, 7, 3, 7, 4, 7]) (demo.runtime .sent) 0
    [⟨"P"⟩, ⟨"Q"⟩] [.recv, .recv, .recv] ⟨"P"⟩ (fun _ _ => rfl) (by decide)
  have ho : observed ⟨"P"⟩ (allSteps (Watch (demo.module [3, 7, 3, 7, 4, 7])
      (demo.runtime .sent) 0 [⟨"P"⟩, ⟨"Q"⟩] [.recv, .recv, .recv]).ticks) = [3, 3, 4] := by
    decide
  refine ⟨?_, ho⟩
  rw [h.1, ho]
  decide

theorem delivered_eq_nil (steps : List Step)
    (h : ∀ s ∈ steps, ∀ ev, s.attempt ≠ some (ev, .sent)) : delivered steps = [] := by
  unfold delivered
  rw [List.filterMap_eq_nil_iff]
  intro s hs
  cases ha : s.attempt with
  | none => rfl
  | some a =>
    obtain ⟨ev, o⟩ := a
    cases o with
    | sent => exact absurd ha (h s hs ev)
    | ctxDone => rfl
    | timedOut => rfl

/-- C6, as the code runs it: three tracked ids and a consumer that never receives; the
send for the first id times out, the second id is fetched in stateID 8, outside the table
`api.DealStates`, and the struct literal panics: the third id is not fetched in that tick
and the second tick is not run. -/
theorem Watch_timeout_then_state_outside_table :
    (Watch (demo.module [1, 8, 3, 1, 8, 3]) (demo.runtime .timedOut) 0
        [⟨"P"⟩, ⟨"Q"⟩, ⟨"R"⟩] [.recv, .recv]).ticks.map (fun t => t.map Step.pcid)
      = [[⟨"P"⟩, ⟨"Q"⟩]] ∧
    attempted ⟨"P"⟩ (allSteps (Watch (demo.module [1, 8, 3, 1, 8, 3]) (demo.runtime .timedOut) 0
        [⟨"P"⟩, ⟨"Q"⟩, ⟨"R"⟩] [.recv, .recv]).ticks) = [1] ∧
    (Watch (demo.module [1, 8, 3, 1, 8, 3]) (demo.runtime .timedOut) 0
        [⟨"P"⟩, ⟨"Q"⟩, ⟨"R"⟩] [.recv, .recv]).panic = some indexOutOfRange ∧
    ¬ ((∀ t ∈ (Watch (demo.module [1, 8, 3, 1, 8, 3]) (demo.runtime .timedOut) 0
          [⟨"P"⟩, ⟨"Q"⟩, ⟨"R"⟩] [.recv, .recv]).ticks,
          t.map Step.pcid = [⟨"P"⟩, ⟨"Q"⟩, ⟨"R"⟩]) ∧
       (Watch (demo.module [1, 8, 3, 1, 8, 3]) (demo.runtime .timedOut) 0
          [⟨"P"⟩, ⟨"Q"⟩, ⟨"R"⟩] [.recv, .recv]).ticks.length = 2) := by
  decide

/-- C6, amended: when no send resolves to `ctx.Done()` (the context is not cancelled) and
every fetched stateID is an index of `api.DealStates`, then however many sends time out
after `chanWriteTimeout` = 1 second: every tick still makes one iteration for every
tracked id; one tick is run for every receive from the feed before the first
`ctx.Done()`; the sends attempted for a proposal `p`, delivered or dropped, are the
stateIDs fetched for `p` with consecutive duplicates collapsed, so that a dropped state is
not sent again while the fetched stateID stays the same; and a consumer that never
receives gets nothing. -/
theorem Watch_timeout_drops (m : Module σ) (rt : Runtime σ) (w w1 : σ)
    (proposals : List Cid) (sels : List LoopSelect) (p : Cid)
    (hsub : m.api.ChainNotify w = (.ok (), w1))
    (hnc : ∀ w ev, (rt.selectSend w ev).1 ≠ .ctxDone)
    (hin : ∀ s ∈ allSteps (Watch m rt w proposals sels).ticks, s.inTable = true) :
    chanWriteTimeout = 1000000000 ∧
    (∀ t ∈ (Watch m rt w proposals sels).ticks, t.map Step.pcid = proposals) ∧
    (Watch m rt w proposals sels).ticks.length
      = (sels.takeWhile (fun x => x ≠ .ctxDone)).length ∧
    attempted p (allSteps (Watch m rt w proposals sels).ticks)
      = (observed p (allSteps (Watch m rt w proposals sels).ticks)).destutter (· ≠ ·) ∧
    ((∀ w ev, (rt.selectSend w ev).1 = .timedOut) →
      delivered (allSteps (Watch m rt w proposals sels).ticks) = []) := by
  refine ⟨rfl, Watch_ticks_cover m rt w proposals sels hnc hin, ?_,
    Watch_attempted m rt w proposals sels p (fun s hs _ => hin s hs), ?_⟩
  · simp only [Watch, hsub] at hin ⊢
    exact (watchLoop_ticks_length m rt proposals sels _ w1 hin).2
  · intro hto
    apply delivered_eq_nil
    intro s hs ev ha
    obtain ⟨d, w2, _, _, ho⟩ := Watch_coherent m rt w proposals sels s hs ev .sent ha
    rw [hto w2 ev] at ho
    exact SendOutcome.noConfusion ho

/-- The amended C6 at a consumer that never receives: one proposal fetched in states 0,
0, 2, 2, 5 and another fetched in state 1 throughout, over five ticks. -/
theorem Watch_timeout_drops_witness :
    (Watch (demo.module [0, 1, 0, 1, 2, 1, 2, 1, 5, 1]) (demo.runtime .timedOut) 0
        [⟨"P"⟩, ⟨"Q"⟩] [.recv, .recv, .recv, .recv, .recv]).ticks.length = 5 ∧
    attempted ⟨"P"⟩ (allSteps (Watch (demo.module [0, 1, 0, 1, 2, 1, 2, 1, 5, 1])
        (demo.runtime .timedOut) 0 [⟨"P"⟩, ⟨"Q"⟩]
        [.recv, .recv, .recv, .recv, .recv]).ticks) = [0, 2, 5] ∧
    delivered (allSteps (Watch (demo.module [0, 1, 0, 1, 2, 1, 2, 1, 5, 1])
        (demo.runtime .timedOut) 0 [⟨"P"⟩, ⟨"Q"⟩]
        [.recv, .recv, .recv, .recv, .recv]).ticks) = [] := by
  have h := Watch_timeout_drops (demo.module [0, 1, 0, 1, 2, 1, 2, 1, 5, 1])
    (demo.runtime .timedOut) 0 0 [⟨"P"⟩, ⟨"Q"⟩] [.recv, .recv, .recv, .recv, .recv] ⟨"P"⟩
    rfl (fun _ _ h => SendOutcome.noConfusion h) (by decide)
  refine ⟨?_, ?_, h.2.2.2.2 (fun _ _ => rfl)⟩
  · rw [h.2.2.1]; decide
  · have ho : observed ⟨"P"⟩ (allSteps (Watch (demo.module [0, 1, 0, 1, 2, 1, 2, 1, 5, 1])
        (demo.runtime .timedOut) 0 [⟨"P"⟩, ⟨"Q"⟩]
        [.recv, .recv, .recv, .recv, .recv]).ticks) = [0, 0, 2, 2, 5] := by decide
    rw [h.2.2.2.1, ho]
    decide

theorem delivered_map_StateID (p : Cid) (steps : List Step) (h : ∀ s ∈ steps, s.pcid = p) :
    (delivered steps).map (fun ev => ev.StateID) = emitted p steps := by
  induction steps with
  | nil => rfl
  | cons s rest ih =>
    have hs : s.pcid = p := h s (List.mem_cons_self _ _)
    have hr := ih (fun x hx => h x (List.mem_cons_of_mem _ hx))
    unfold delivered emitted at hr ⊢
    cases ha : s.attempt with
    | none => simpa [List.filterMap_cons, ha, hs] using hr
    | some a =>
      obtain ⟨ev, o⟩ := a
      cases o <;> simpa [List.filterMap_cons, ha, hs] using hr

/-- A state fetched for `p` is among the states observed for `p`. -/
theorem mem_observed (p : Cid) (steps : List Step) (s : Step) (d : api.DealInfo)
    (hs : s ∈ steps) (hp : s.pcid = p) (hf : s.fetched = .ok d) :
    d.State ∈ observed p steps := by
  unfold observed
  exact List.mem_filterMap.mpr ⟨s, hs, by simp [hp, hf]⟩

/-- C9, as the code runs it: a single proposal fetched in states 0, 0, 2, 2, 5 on five
ticks of a fresh session, every fetch succeeding and every send received, yields three
events, for the stateIDs 0, 2 and 5, and not two events for 2 and 5. -/
theorem Watch_first_observation_is_emitted :
    observed ⟨"P"⟩ (allSteps (Watch (demo.module [0, 0, 2, 2, 5]) (demo.runtime .sent) 0
        [⟨"P"⟩] [.recv, .recv, .recv, .recv, .recv]).ticks) = [0, 0, 2, 2, 5] ∧
    (delivered (allSteps (Watch (demo.module [0, 0, 2, 2, 5]) (demo.runtime .sent) 0
        [⟨"P"⟩] [.recv, .recv, .recv, .recv, .recv]).ticks)).map (fun ev => ev.StateID)
      = [0, 2, 5] ∧
    ¬ ((delivered (allSteps (Watch (demo.module [0, 0, 2, 2, 5]) (demo.runtime .sent) 0
        [⟨"P"⟩] [.recv, .recv, .recv, .recv, .recv]).ticks)).length = 2 ∧
       (delivered (allSteps (Watch (demo.module [0, 0, 2, 2, 5]) (demo.runtime .sent) 0
        [⟨"P"⟩] [.recv, .recv, .recv, .recv, .recv]).ticks)).map (fun ev => ev.StateID)
      = [2, 5]) := by
  decide

/-- C9, amended: when `Watch` tracks the single proposal `P` in a fresh session, the
stateIDs fetched for `P` on five ticks are 0, 0, 2, 2, 5 and the consumer receives every
send, exactly three events are delivered, for the stateIDs 0 (the first observation), 2
and 5, each being `newState` of the `DealInfo` fetched in the iteration that sent it. -/
theorem Watch_scenario_three_events (m : Module σ) (rt : Runtime σ) (w : σ) (P : Cid)
    (hsend : ∀ w ev, (rt.selectSend w ev).1 = .sent)
    (hobs : observed P (allSteps
      (Watch m rt w [P] [.recv, .recv, .recv, .recv, .recv]).ticks) = [0, 0, 2, 2, 5]) :
    (delivered (allSteps
      (Watch m rt w [P] [.recv, .recv, .recv, .recv, .recv]).ticks)).map
        (fun ev => ev.StateID) = [0, 2, 5] ∧
    (delivered (allSteps
      (Watch m rt w [P] [.recv, .recv, .recv, .recv, .recv]).ticks)).length = 3 ∧
    (∀ s ∈ allSteps (Watch m rt w [P] [.recv, .recv, .recv, .recv, .recv]).ticks,
      ∀ ev o, s.attempt = some (ev, o) →
        ∃ d, s.fetched = .ok d ∧ newState rt d = some ev) := by
  have hall : ∀ s ∈ allSteps (Watch m rt w [P] [.recv, .recv, .recv, .recv, .recv]).ticks,
      s.pcid = P := fun s hs =>
    List.mem_singleton.mp (Watch_pcid_mem m rt w [P] _ s hs)
  have hin : ∀ s ∈ allSteps (Watch m rt w [P] [.recv, .recv, .recv, .recv, .recv]).ticks,
      s.pcid = P → s.inTable = true := by
    intro s hs hp
    unfold Step.inTable
    cases hf : s.fetched with
    | error e => rfl
    | ok d =>
      have hmem := mem_observed P _ s d hs hp hf
      rw [hobs] at hmem
      have hlt : d.State < 8 := by
        simp only [List.mem_cons, List.mem_singleton, List.not_mem_nil, or_false] at hmem
        omega
      simpa [api.DealStates] using hlt
  have hem := (Watch_emitted_eq_attempted m rt w [P]
    [.recv, .recv, .recv, .recv, .recv] P hsend).trans
    (Watch_attempted m rt w [P] [.recv, .recv, .recv, .recv, .recv] P hin)
  have hmap := delivered_map_StateID P _ hall
  rw [hem, hobs] at hmap
  have hd : ([0, 0, 2, 2, 5] : List Nat).destutter (· ≠ ·) = [0, 2, 5] := by decide
  rw [hd] at hmap
  refine ⟨hmap, ?_, ?_⟩
  · have := congrArg List.length hmap
    simpa using this
  · intro s hs ev o ha
    obtain ⟨d, _, hf, hev, _⟩ := Watch_coherent m rt w [P] _ s hs ev o ha
    exact ⟨d, hf, hev⟩

/-- The amended C9 on a node that reports the states 0, 0, 2, 2, 5. -/
theorem Watch_scenario_three_events_witness :
    (delivered (allSteps (Watch (demo.module [0, 0, 2, 2, 5]) (demo.runtime .sent) 0
        [⟨"P"⟩] [.recv, .recv, .recv, .recv, .recv]).ticks)).map (fun ev => ev.StateID)
      = [0, 2, 5] ∧
    (delivered (allSteps (Watch (demo.module [0, 0, 2, 2, 5]) (demo.runtime .sent) 0
        [⟨"P"⟩] [.recv, .recv, .recv, .recv, .recv]).ticks)).length = 3 :=
  have h := Watch_scenario_three_events (demo.module [0, 0, 2, 2, 5]) (demo.runtime .sent) 0
    ⟨"P"⟩ (fun _ _ => rfl) (by decide)
  ⟨h.1, h.2.1⟩

/-! ### The watcher: a fetch that fails -/

/-- When every fetch for `p` in a tick failed, the tick leaves the map entry of `p` as it
was and attempts no send for `p`. -/
theorem pushNewChanges_failed_fetch (m : Module σ) (rt : Runtime σ) (p : Cid)
    (ps : List Cid) (cs : StateMap) (w : σ)
    (hfail : ∀ s ∈ (pushNewChanges m rt cs w ps).steps, s.pcid = p → s.fetched.isOk = false) :
    (pushNewChanges m rt cs w ps).currState p = cs p ∧
    ∀ s ∈ (pushNewChanges m rt cs w ps).steps, s.pcid = p → s.attempt = none := by
  induction ps generalizing cs w with
  | nil => simp [pushNewChanges]
  | cons pcid rest ih =>
    have hok : ∀ (d : api.DealInfo) (a : Option (DealInfo × SendOutcome)),
        (⟨pcid, .ok d, a⟩ : Step) ∈ (pushNewChanges m rt cs w (pcid :: rest)).steps →
        pcid ≠ p := by
      intro d a hmem hp
      have := hfail _ hmem hp
      simp [Except.isOk, Except.toBool] at this
    have hset : ∀ d : api.DealInfo, pcid ≠ p → setState cs pcid d p = cs p := by
      intro d hne
      simp [setState, Ne.symm hne]
    rcases pushNewChanges_cons_cases m rt cs w pcid rest with
      ⟨e, w1, _, heq⟩ | ⟨d, w1, _, _, heq⟩ | ⟨d, w1, _, _, _, heq⟩ |
      ⟨d, w1, ev, w2, _, _, _, _, heq⟩ | ⟨d, w1, ev, o, w2, _, _, _, _, _, heq⟩
    · rw [heq] at hfail ⊢
      simp only [PushRun.after, List.mem_cons] at hfail ⊢
      obtain ⟨h1, h2⟩ := ih cs w1 (fun s hs => hfail s (Or.inr hs))
      refine ⟨h1, ?_⟩
      intro s hs hp
      rcases hs with rfl | hs
      · rfl
      · exact h2 s hs hp
    · rw [heq] at hfail ⊢
      simp only [PushRun.after, List.mem_cons] at hfail ⊢
      obtain ⟨h1, h2⟩ := ih cs w1 (fun s hs => hfail s (Or.inr hs))
      refine ⟨h1, ?_⟩
      intro s hs hp
      rcases hs with rfl | hs
      · rfl
      · exact h2 s hs hp
    · have hne := hok d none (by rw [heq]; exact List.mem_singleton.mpr rfl)
      rw [heq]
      refine ⟨hset d hne, ?_⟩
      intro s hs hp
      rw [List.mem_singleton.mp hs]
    · have hne := hok d (some (ev, .ctxDone)) (by rw [heq]; exact List.mem_singleton.mpr rfl)
      rw [heq]
      refine ⟨hset d hne, ?_⟩
      intro s hs hp
      rw [List.mem_singleton.mp hs] at hp
      exact absurd hp hne
    · have hne := hok d (some (ev, o)) (by rw [heq]; exact List.mem_cons_self _ _)
      rw [heq] at hfail ⊢
      simp only [PushRun.after, List.mem_cons] at hfail ⊢
      obtain ⟨h1, h2⟩ := ih (setState cs pcid d) w2 (fun s hs => hfail s (Or.inr hs))
      refine ⟨h1.trans (hset d hne), ?_⟩
      intro s hs hp
      rcases hs with rfl | hs
      · exact absurd hp hne
      · exact h2 s hs hp

/-- The first iteration of a tick is for the first id and records what its fetch
returned. -/
theorem pushNewChanges_cons_head (m : Module σ) (rt : Runtime σ) (cs : StateMap) (w : σ)
    (pcid : Cid) (rest : List Cid) :
    ∃ s ∈ (pushNewChanges m rt cs w (pcid :: rest)).steps,
      s.pcid = pcid ∧ s.fetched = (m.api.ClientGetDealInfo w pcid).1 := by
  rcases pushNewChanges_cons_cases m rt cs w pcid rest with
    ⟨e, w1, hf, heq⟩ | ⟨d, w1, hf, _, heq⟩ | ⟨d, w1, hf, _, _, heq⟩ |
    ⟨d, w1, ev, w2, hf, _, _, _, heq⟩ | ⟨d, w1, ev, o, w2, hf, _, _, _, _, heq⟩
  · rw [heq, hf]; exact ⟨_, List.mem_cons_self _ _, rfl, rfl⟩
  · rw [heq, hf]; exact ⟨_, List.mem_cons_self _ _, rfl, rfl⟩
  · rw [heq, hf]; exact ⟨_, List.mem_singleton.mpr rfl, rfl, rfl⟩
  · rw [heq, hf]; exact ⟨_, List.mem_singleton.mpr rfl, rfl, rfl⟩
  · rw [heq, hf]; exact ⟨_, List.mem_cons_self _ _, rfl, rfl⟩

theorem pushNewChanges_cons_error (m : Module σ) (rt : Runtime σ) (cs : StateMap) (w w1 : σ)
    (pcid : Cid) (rest : List Cid) (e : Error)
    (hf : m.api.ClientGetDealInfo w pcid = (.error e, w1)) :
    pushNewChanges m rt cs w (pcid :: rest)
      = (pushNewChanges m rt cs w1 rest).after ⟨pcid, .error e, none⟩ := by
  simp [pushNewChanges, hf]

theorem pushNewChanges_cons_same (m : Module σ) (rt : Runtime σ) (cs : StateMap) (w w1 : σ)
    (pcid : Cid) (rest : List Cid) (d : api.DealInfo)
    (hf : m.api.ClientGetDealInfo w pcid = (.ok d, w1))
    (hn : ¬ isNewState cs pcid d = true) :
    pushNewChanges m rt cs w (pcid :: rest)
      = (pushNewChanges m rt cs w1 rest).after ⟨pcid, .ok d, none⟩ := by
  simp [pushNewChanges, hf, hn]

theorem pushNewChanges_cons_panic (m : Module σ) (rt : Runtime σ) (cs : StateMap)
    (w w1 : σ) (pcid : Cid) (rest : List Cid) (d : api.DealInfo)
    (hf : m.api.ClientGetDealInfo w pcid = (.ok d, w1))
    (hn : isNewState cs pcid d = true) (hev : newState rt d = none) :
    pushNewChanges m rt cs w (pcid :: rest)
      = ⟨setState cs pcid d, [⟨pcid, .ok d, none⟩], .panicked indexOutOfRange, w1⟩ := by
  simp [pushNewChanges, hf, hn, hev]

theorem pushNewChanges_cons_ctxDone (m : Module σ) (rt : Runtime σ) (cs : StateMap)
    (w w1 w2 : σ) (pcid : Cid) (rest : List Cid) (d : api.DealInfo) (ev : DealInfo)
    (hf : m.api.ClientGetDealInfo w pcid = (.ok d, w1))
    (hn : isNewState cs pcid d = true) (hev : newState rt d = some ev)
    (hs : rt.selectSend w1 ev = (.ctxDone, w2)) :
    pushNewChanges m rt cs w (pcid :: rest)
      = ⟨setState cs pcid d, [⟨pcid, .ok d, some (ev, .ctxDone)⟩], .returned none, w2⟩ := by
  simp [pushNewChanges, hf, hn, hev, hs]

theorem pushNewChanges_cons_send (m : Module σ) (rt : Runtime σ) (cs : StateMap)
    (w w1 w2 : σ) (pcid : Cid) (rest : List Cid) (d : api.DealInfo) (ev : DealInfo)
    (o : SendOutcome)
    (hf : m.api.ClientGetDealInfo w pcid = (.ok d, w1))
    (hn : isNewState cs pcid d = true) (hev : newState rt d = some ev)
    (hs : rt.selectSend w1 ev = (o, w2)) (ho : o ≠ .ctxDone) :
    pushNewChanges m rt cs w (pcid :: rest)
      = (pushNewChanges m rt (setState cs pcid d) w2 rest).after
          ⟨pcid, .ok d, some (ev, o)⟩ := by
  cases o with
  | ctxDone => exact absurd rfl ho
  | sent => simp [pushNewChanges, hf, hn, hev, hs]
  | timedOut => simp [pushNewChanges, hf, hn, hev, hs]

/-- When every fetch for `p` in a tick failed and fetching `p` leaves the world as it is,
the tick is the tick over the list without `p`, with the failed iterations added: same
map, same world, same end, same iterations for the other ids. -/
theorem pushNewChanges_without (m : Module σ) (rt : Runtime σ) (p : Cid)
    (hpure : ∀ w, (m.api.ClientGetDealInfo w p).2 = w)
    (ps : List Cid) (cs : StateMap) (w : σ)
    (hfail : ∀ s ∈ (pushNewChanges m rt cs w ps).steps, s.pcid = p → s.fetched.isOk = false) :
    (pushNewChanges m rt cs w ps).currState
      = (pushNewChanges m rt cs w (ps.filter (fun q => q ≠ p))).currState ∧
    (pushNewChanges m rt cs w ps).world
      = (pushNewChanges m rt cs w (ps.filter (fun q => q ≠ p))).world ∧
    (pushNewChanges m rt cs w ps).exit
      = (pushNewChanges m rt cs w (ps.filter (fun q => q ≠ p))).exit ∧
    (pushNewChanges m rt cs w ps).steps.filter (fun s => s.pcid ≠ p)
      = (pushNewChanges m rt cs w (ps.filter (fun q => q ≠ p))).steps := by
  induction ps generalizing cs w with
  | nil => simp [pushNewChanges]
  | cons pcid rest ih =>
    rcases hf : m.api.ClientGetDealInfo w pcid with ⟨r, w1⟩
    by_cases hp : pcid = p
    · subst hp
      have hw : w1 = w := by have := hpure w; rw [hf] at this; exact this
      subst hw
      obtain ⟨s, hs, hs1, hs2⟩ := pushNewChanges_cons_head m rt cs w1 pcid rest
      have hbad := hfail s hs hs1
      rw [hs2, hf] at hbad
      cases r with
      | ok d => simp [Except.isOk, Except.toBool] at hbad
      | error e =>
        rw [pushNewChanges_cons_error m rt cs w1 w1 pcid rest e hf] at hfail ⊢
        simp only [PushRun.after, List.mem_cons] at hfail
        have h := ih cs w1 (fun s hs => hfail s (Or.inr hs))
        simpa [PushRun.after, List.filter_cons] using h
    · have hfl : (pcid :: rest).filter (fun q => q ≠ p) = pcid :: rest.filter (fun q => q ≠ p) := by
        simp [List.filter_cons, hp]
      rw [hfl]
      cases r with
      | error e =>
        rw [pushNewChanges_cons_error m rt cs w w1 pcid rest e hf] at hfail ⊢
        rw [pushNewChanges_cons_error m rt cs w w1 pcid _ e hf]
        simp only [PushRun.after, List.mem_cons] at hfail
        have h := ih cs w1 (fun s hs => hfail s (Or.inr hs))
        simpa [PushRun.after, List.filter_cons, hp] using h
      | ok d =>
        by_cases hn : isNewState cs pcid d = true
        · cases hev : newState rt d with
          | none =>
            rw [pushNewChanges_cons_panic m rt cs w w1 pcid rest d hf hn hev]
            rw [pushNewChanges_cons_panic m rt cs w w1 pcid _ d hf hn hev]
            simp [List.filter_cons, hp]
          | some ev =>
            rcases hs : rt.selectSend w1 ev with ⟨o, w2⟩
            by_cases ho : o = .ctxDone
            · subst ho
              rw [pushNewChanges_cons_ctxDone m rt cs w w1 w2 pcid rest d ev hf hn hev hs]
              rw [pushNewChanges_cons_ctxDone m rt cs w w1 w2 pcid _ d ev hf hn hev hs]
              simp [List.filter_cons, hp]
            · rw [pushNewChanges_cons_send m rt cs w w1 w2 pcid rest d ev o hf hn hev hs ho]
                at hfail ⊢
              rw [pushNewChanges_cons_send m rt cs w w1 w2 pcid _ d ev o hf hn hev hs ho]
              simp only [PushRun.after, List.mem_cons] at hfail
              have h := ih (setState cs pcid d) w2 (fun s hs => hfail s (Or.inr hs))
              simpa [PushRun.after, List.filter_cons, hp] using h
        · rw [pushNewChanges_cons_same m rt cs w w1 pcid rest d hf hn] at hfail ⊢
          rw [pushNewChanges_cons_same m rt cs w w1 pcid _ d hf hn]
          simp only [PushRun.after, List.mem_cons] at hfail
          have h := ih cs w1 (fun s hs => hfail s (Or.inr hs))
          simpa [PushRun.after, List.filter_cons, hp] using h

/-- C7, as the code runs it: three tracked ids; the fetch of the first fails and the
second is fetched in stateID 8, outside the table `api.DealStates`: the struct literal
panics, the third id is not fetched, and `pushNewChanges` does not return. -/
theorem pushNewChanges_panics_after_failed_fetch :
    (pushNewChanges (demo.module [8, 3]) (demo.runtime .sent) (fun _ => none) 0
        [⟨"lost"⟩, ⟨"Q"⟩, ⟨"R"⟩]).steps.map Step.pcid = [⟨"lost"⟩, ⟨"Q"⟩] ∧
    (pushNewChanges (demo.module [8, 3]) (demo.runtime .sent) (fun _ => none) 0
        [⟨"lost"⟩, ⟨"Q"⟩, ⟨"R"⟩]).exit = .panicked indexOutOfRange ∧
    ¬ ((pushNewChanges (demo.module [8, 3]) (demo.runtime .sent) (fun _ => none) 0
          [⟨"lost"⟩, ⟨"Q"⟩, ⟨"R"⟩]).steps.map Step.pcid = [⟨"lost"⟩, ⟨"Q"⟩, ⟨"R"⟩] ∧
       (pushNewChanges (demo.module [8, 3]) (demo.runtime .sent) (fun _ => none) 0
          [⟨"lost"⟩, ⟨"Q"⟩, ⟨"R"⟩]).exit = .returned none) := by
  decide

/-- C7, amended: if on a tick every fetch of `ClientGetDealInfo` for the tracked id `p`
returned an error, then the tick attempts no send for `p` and leaves the map entry of `p`
as it was; when fetching `p` leaves the node as it is, the map, the world, the end of the
call and the iterations for the other ids are those of the tick over the list without
`p`; and provided every stateID fetched on that tick is an index of `api.DealStates`,
`pushNewChanges` returns a nil error and the tick makes one iteration for every tracked
id unless a send resolves to `ctx.Done()`. -/
theorem pushNewChanges_skips_failed_fetch (m : Module σ) (rt : Runtime σ) (p : Cid)
    (proposals : List Cid) (cs : StateMap) (w : σ)
    (hfail : ∀ s ∈ (pushNewChanges m rt cs w proposals).steps,
      s.pcid = p → s.fetched.isOk = false) :
    (pushNewChanges m rt cs w proposals).currState p = cs p ∧
    (∀ s ∈ (pushNewChanges m rt cs w proposals).steps, s.pcid = p → s.attempt = none) ∧
    ((∀ s ∈ (pushNewChanges m rt cs w proposals).steps, s.inTable = true) →
      (pushNewChanges m rt cs w proposals).exit = .returned none ∧
      ((∀ s ∈ (pushNewChanges m rt cs w proposals).steps,
          ∀ ev, s.attempt ≠ some (ev, .ctxDone)) →
        (pushNewChanges m rt cs w proposals).steps.map Step.pcid = proposals)) ∧
    ((∀ w, (m.api.ClientGetDealInfo w p).2 = w) →
      (pushNewChanges m rt cs w proposals).currState
        = (pushNewChanges m rt cs w (proposals.filter (fun q => q ≠ p))).currState ∧
      (pushNewChanges m rt cs w proposals).world
        = (pushNewChanges m rt cs w (proposals.filter (fun q => q ≠ p))).world ∧
      (pushNewChanges m rt cs w proposals).exit
        = (pushNewChanges m rt cs w (proposals.filter (fun q => q ≠ p))).exit ∧
      (pushNewChanges m rt cs w proposals).steps.filter (fun s => s.pcid ≠ p)
        = (pushNewChanges m rt cs w (proposals.filter (fun q => q ≠ p))).steps) := by
  obtain ⟨h1, h2⟩ := pushNewChanges_failed_fetch m rt p proposals cs w hfail
  exact ⟨h1, h2,
    fun hin => ⟨pushNewChanges_returns m rt proposals cs w hin,
      fun hnc => pushNewChanges_pcids m rt proposals cs w hnc hin⟩,
    fun hpure => pushNewChanges_without m rt p hpure proposals cs w hfail⟩

/-- The amended C7 at three tracked ids whose second is unknown to the node: its entry
stays absent, the two others are delivered in states 4 and 6, as without it. -/
theorem pushNewChanges_skips_failed_fetch_witness :
    (pushNewChanges (demo.module [4, 6]) (demo.runtime .sent) (fun _ => none) 0
        [⟨"P"⟩, ⟨"lost"⟩, ⟨"Q"⟩]).currState ⟨"lost"⟩ = none ∧
    (pushNewChanges (demo.module [4, 6]) (demo.runtime .sent) (fun _ => none) 0
        [⟨"P"⟩, ⟨"lost"⟩, ⟨"Q"⟩]).exit = .returned none ∧
    (pushNewChanges (demo.module [4, 6]) (demo.runtime .sent) (fun _ => none) 0
        [⟨"P"⟩, ⟨"lost"⟩, ⟨"Q"⟩]).steps.map Step.pcid = [⟨"P"⟩, ⟨"lost"⟩, ⟨"Q"⟩] ∧
    (pushNewChanges (demo.module [4, 6]) (demo.runtime .sent) (fun _ => none) 0
        [⟨"P"⟩, ⟨"lost"⟩, ⟨"Q"⟩]).steps.filter (fun s => s.pcid ≠ ⟨"lost"⟩)
      = (pushNewChanges (demo.module [4, 6]) (demo.runtime .sent) (fun _ => none) 0
        [⟨"P"⟩, ⟨"Q"⟩]).steps ∧
    (delivered (pushNewChanges (demo.module [4, 6]) (demo.runtime .sent) (fun _ => none) 0
        [⟨"P"⟩, ⟨"lost"⟩, ⟨"Q"⟩]).steps).map (fun ev => ev.StateID) = [4, 6] := by
  have h := pushNewChanges_skips_failed_fetch (demo.module [4, 6]) (demo.runtime .sent)
    ⟨"lost"⟩ [⟨"P"⟩, ⟨"lost"⟩, ⟨"Q"⟩] (fun _ => none) 0 (by decide)
  have hpure : ∀ w, ((demo.module [4, 6]).api.ClientGetDealInfo w ⟨"lost"⟩).2 = w :=
    fun _ => rfl
  have hnc : ∀ s ∈ (pushNewChanges (demo.module [4, 6]) (demo.runtime .sent) (fun _ => none) 0
      [⟨"P"⟩, ⟨"lost"⟩, ⟨"Q"⟩]).steps, ∀ ev, s.attempt ≠ some (ev, .ctxDone) :=
    fun s hs ev => (pushNewChanges_coherent _ _ _ _ _ s hs).no_ctxDone
      (fun _ _ h => SendOutcome.noConfusion h) ev
  have h3 := h.2.2.1 (by decide)
  refine ⟨h.1, h3.1, h3.2 hnc, ?_, by decide⟩
  have h4 := (h.2.2.2 hpure).2.2.2
  rw [h4]
  decide

/-- C8, as the code runs it: after one notification the feed closes and the context is
never cancelled; each later `select` receives from the closed feed and runs
`pushNewChanges` again, so three more fetches are made and three more events delivered,
and the goroutine has not returned (the channel is not closed). -/
theorem Watch_keeps_running_on_closed_feed :
    (Watch (demo.module [0, 1, 2, 3]) (demo.runtime .sent) 0 [⟨"P"⟩]
        [.recv, .closed, .closed, .closed]).chClosed = false ∧
    (Watch (demo.module [0, 1, 2, 3]) (demo.runtime .sent) 0 [⟨"P"⟩]
        [.recv, .closed, .closed, .closed]).ticks.length = 4 ∧
    (allSteps (Watch (demo.module [0, 1, 2, 3]) (demo.runtime .sent) 0 [⟨"P"⟩]
        [.recv, .closed, .closed, .closed]).ticks).map Step.pcid
      = [⟨"P"⟩, ⟨"P"⟩, ⟨"P"⟩, ⟨"P"⟩] ∧
    (delivered (allSteps (Watch (demo.module [0, 1, 2, 3]) (demo.runtime .sent) 0 [⟨"P"⟩]
        [.recv, .closed, .closed, .closed]).ticks)).map (fun ev => ev.StateID)
      = [0, 1, 2, 3] := by
  decide

end deals

namespace dealexecutor

variable {σ : Type}

/-- On a trigger stream that delivers at least one id, `Start` calls `Redo` for the first
id and then panics in `addErrorEvent` or `addSuccessEvent`, whatever `Redo` returned. -/
theorem startLoop_cons (de : DealExecutor σ) (w : σ) (triggered : Cid) (rest : List Cid) :
    (startLoop de w (triggered :: rest)).result = .panic "TODO" ∧
    (startLoop de w (triggered :: rest)).redone = [triggered] := by
  rcases hr : de.dr.Redo w triggered with ⟨r, w1⟩
  cases r <;> simp [startLoop, hr, addErrorEvent, addSuccessEvent]

/-- C4, as the code runs it: on the triggers A, B, C with the redo of B failing, `Start`
calls `Redo` for A only and panics with `TODO` in `addSuccessEvent`; it does not go on to
B and C, does not return, and records no log entry. -/
theorem Start_panics_at_first_trigger :
    (Start demo.executor 0 0).result = .panic "TODO" ∧
    (Start demo.executor 0 0).redone = [⟨"A"⟩] ∧
    addSuccessEvent demo.executor ⟨"A"⟩ ⟨"new-A"⟩ = .panic "TODO" ∧
    addErrorEvent demo.executor ⟨"B"⟩ "redo failed" = .panic "TODO" := by
  decide

/-- C10, as the code runs it: for every `since` and `limit`, `GetLog` panics with `TODO`
and returns nothing. -/
theorem GetLog_panics (de : DealExecutor σ) (since : Nat) (limit : Int) :
    GetLog de since limit = .panic "TODO" := rfl

end dealexecutor

end FilTools
